import Mathlib

/-!
# FreeFlash (Writable Flash)

A shallow embedding of `firmware.h` and `freeflash.c`.

* Privileged (LV2) memory is a map from 64-bit addresses to the 64-bit word that
  `LV2_Peek` reads there and `LV2_Poke` writes there.  The cells the program touches
  (the version word, the five patch words, the sixteen device-list words) are pairwise
  disjoint, so cells at different addresses are independent.
* `u64` / `u32` values are natural numbers; pointer arithmetic wraps modulo `2 ^ 64`.
* The static pointer `fw` is an `Option Firmware` (`none` is `NULL`); a function that
  dereferences `fw` returns `none` when it is `NULL`.
* The calls that leave the program (`LV2_Poke`, `LV2_Mount`, `Image_Draw`) are recorded,
  in program order, in a trace.
-/

namespace FreeFlash

/-! ## firmware.h -/

/-- LV2 patch structure. -/
structure LV2Patch where
  address : Nat
  value : Nat
deriving DecidableEq, Repr

/-- Firmware structure; `patches` models `LV2Patch patches[32]`. -/
structure Firmware where
  version : Nat
  devlist : Nat
  patches : List LV2Patch
deriving DecidableEq, Repr

/-- The 3.41 firmware entry.  The initialiser lists five patches and `{ 0, 0 }`; the
remaining 26 elements of `patches[32]` are zero-initialised. -/
def fw341 : Firmware where
  version := 34100
  devlist := 0x80000000003EE470
  patches :=
    [ ⟨0x800000000018F6B0, 0x480000483C008001⟩,
      ⟨0x800000000018F720, 0x480001202F9F0000⟩,
      ⟨0x8000000000192480, 0x4800004C4092FEC4⟩,
      ⟨0x8000000000192520, 0x600000002FBA0000⟩,
      ⟨0x800000000019282C, 0x63BD06664BFFD67D⟩,
      ⟨0, 0⟩ ] ++ List.replicate 26 ⟨0, 0⟩

/-- Firmware table. -/
def FwTable : List Firmware := [fw341]

/-! ## freeflash.c -/

/-- Flash strings. -/
def STR_FLASH : Nat := 0x5F666C6173680000
def STR_FLASHX : Nat := 0x5F666C6173685800
def STR_FFLASH : Nat := 0x5F66666C61736800

/-- The errno constant `EINVAL`. -/
def EINVAL : Int := 22

/-- Address the firmware version is read from. -/
def VERSION_ADDR : Nat := 0x80000000002D7580

/-- Privileged memory: the 64-bit word held at each address. -/
abbrev Mem := Nat → Nat

/-- Calls that leave the program, in the order they are issued. -/
inductive Event where
  | poke (address value : Nat)
  | mount
  | draw (image : Nat)
deriving DecidableEq, Repr

/-- Program state: privileged memory, the static pointer `fw`, and the trace. -/
structure State where
  mem : Mem
  fw : Option Firmware
  trace : List Event

/-- State at program start: `fw` is `NULL`, nothing has been issued yet. -/
def initState (m : Mem) : State := ⟨m, none, []⟩

/-- The services `main` calls into: the results of `SysLoadModule`, `System_Init`,
`Video_Init`, of `Image_LoadPNG` on `images[0]` and `images[1]`, and the mount syscall,
which acts on privileged memory and returns a status. -/
structure Env where
  SysLoadModule : Int
  System_Init : Int
  Video_Init : Int
  Image_LoadPNG : Nat → Int
  LV2_Mount : Mem → Mem × Int

def LV2_Peek (s : State) (addr : Nat) : Nat × State := (s.mem addr, s)

def LV2_Poke (s : State) (addr val : Nat) : State :=
  { s with mem := Function.update s.mem addr val, trace := s.trace ++ [Event.poke addr val] }

def LV2_Mount (env : Env) (s : State) : Int × State :=
  ((env.LV2_Mount s.mem).2,
    { s with mem := (env.LV2_Mount s.mem).1, trace := s.trace ++ [Event.mount] })

def Modules_Load (env : Env) : Int := env.SysLoadModule

def Resources_Load (env : Env) : Int :=
  if env.Image_LoadPNG 0 ≠ 0 then env.Image_LoadPNG 0
  else if env.Image_LoadPNG 1 ≠ 0 then env.Image_LoadPNG 1
  else 0

/-- The `for` loop of `Fw_CheckVersion` over the entries `FwTable[i..]`; `firm.version` is
a `u32` promoted to `u64` for the comparison with `ver`. -/
def Fw_CheckVersion.loop (ver : Nat) : List Firmware → Option Firmware
  | [] => none
  | firm :: rest => if firm.version = ver then some firm else Fw_CheckVersion.loop ver rest

def Fw_CheckVersion (s : State) : Int × State :=
  match LV2_Peek s VERSION_ADDR with
  | (ver, s) =>
    match Fw_CheckVersion.loop ver FwTable with
    | some firm => (0, { s with fw := some firm })
    | none => (-EINVAL, s)

/-- The `for (i = 0;; i++)` loop of `Fw_Lv2Patch` over the entries `patches[i..]`; running
off the end of the array is undefined (`none`). -/
def Fw_Lv2Patch.loop : List LV2Patch → State → Option State
  | [], _ => none
  | patch :: rest, s =>
    if patch.address = 0 then some s
    else Fw_Lv2Patch.loop rest (LV2_Poke s patch.address patch.value)

def Fw_Lv2Patch (s : State) : Option State :=
  match s.fw with
  | none => none
  | some firm => Fw_Lv2Patch.loop firm.patches s

/-- The find loop with `n` iterations left (`n = 16 - i`). -/
def Devlist_Find.loop (val : Nat) : Nat → Nat → State → Int × State
  | 0, _, s => (-EINVAL, s)
  | n + 1, ptr, s =>
    match LV2_Peek s ptr with
    | (v, s) =>
      if v = val then (0, s)
      else Devlist_Find.loop val n ((ptr + 0x100) % 2 ^ 64) s

def Devlist_Find (s : State) (val : Nat) : Option (Int × State) :=
  match s.fw with
  | none => none
  | some firm => some (Devlist_Find.loop val 16 firm.devlist s)

/-- The patch loop with `n` iterations left (`n = 16 - i`). -/
def Devlist_Patch.loop (orig new : Nat) : Nat → Nat → Int → State → Int × State
  | 0, _, ret, s => (ret, s)
  | n + 1, ptr, ret, s =>
    match LV2_Peek s ptr with
    | (v, s) =>
      if v = orig then
        Devlist_Patch.loop orig new n ((ptr + 0x100) % 2 ^ 64) 0 (LV2_Poke s ptr new)
      else Devlist_Patch.loop orig new n ((ptr + 0x100) % 2 ^ 64) ret s

def Devlist_Patch (s : State) (orig new : Nat) : Option (Int × State) :=
  match s.fw with
  | none => none
  | some firm => some (Devlist_Patch.loop orig new 16 firm.devlist (-EINVAL) s)

/-- `Image_Draw(&images[image])`. -/
def Image_Draw (s : State) (image : Nat) : State :=
  { s with trace := s.trace ++ [Event.draw image] }

/-- The code of `main` from the call of `LV2_Mount` on. -/
def main.mount (env : Env) (s : State) : Option (Int × State) :=
  match LV2_Mount env s with
  | (ret, s) =>
    (Devlist_Patch s STR_FLASH STR_FFLASH).bind fun r1 =>
    (Devlist_Patch r1.2 STR_FLASHX STR_FLASH).bind fun r2 =>
    if ret ≠ 0 then some (0, Image_Draw r2.2 0)
    else some (0, Image_Draw r2.2 1)

/-- The code of `main` after `Resources_Load`. -/
def main.body (env : Env) (s : State) : Option (Int × State) :=
  match Fw_CheckVersion s with
  | (ret, s) =>
    if ret ≠ 0 then some (0, Image_Draw s 0)
    else
      (Devlist_Find s STR_FFLASH).bind fun r =>
      if r.1 = 0 then some (0, Image_Draw r.2 0)
      else
        (Fw_Lv2Patch r.2).bind fun s =>
        (Devlist_Patch s STR_FLASH STR_FLASHX).bind fun r =>
        if r.1 ≠ 0 then some (0, Image_Draw r.2 0)
        else main.mount env r.2

/-- The program: returns the exit status and the final state, `none` if it dereferences
a `NULL` `fw` or leaves the `patches` array. -/
def main (env : Env) (s : State) : Option (Int × State) :=
  if Modules_Load env ≠ 0 then some (0, s)
  else if env.System_Init ≠ 0 then some (0, s)
  else if env.Video_Init ≠ 0 then some (0, s)
  else if Resources_Load env ≠ 0 then some (0, s)
  else main.body env s

/-- The outcome shown on screen. -/
inductive Outcome where
  | Success
  | Failed
deriving DecidableEq, Repr

/-- Outcome of a finished run: the image drawn last (`images[1]` is the OK image,
`images[0]` the error image); `none` when the run ended without drawing. -/
def outcome (s : State) : Option Outcome :=
  match s.trace.getLast? with
  | some (Event.draw 1) => some Outcome.Success
  | some (Event.draw 0) => some Outcome.Failed
  | _ => none

/-- Address of registry slot `i` for a device list at `devlist`. -/
def slotAddr (devlist i : Nat) : Nat := devlist + i * 0x100

/-- All the start-up steps before `Fw_CheckVersion` succeeded. -/
def startupOk (env : Env) : Prop :=
  env.SysLoadModule = 0 ∧ env.System_Init = 0 ∧ env.Video_Init = 0 ∧
    env.Image_LoadPNG 0 = 0 ∧ env.Image_LoadPNG 1 = 0

/-- Spec-side description of the cells visited by a loop of `n` iterations starting at
`ptr`: the addresses `ptr + k * 0x100` with `k < n`. -/
def inRange (ptr n a : Nat) : Prop :=
  ptr ≤ a ∧ a < ptr + n * 0x100 ∧ (a - ptr) % 0x100 = 0

instance (ptr n a : Nat) : Decidable (inRange ptr n a) := by
  unfold inRange; infer_instance

/-- Spec-side: the state after issuing the writes of `ps` in list order. -/
def applyPatches (ps : List LV2Patch) (s : State) : State :=
  ps.foldl (fun s p => LV2_Poke s p.address p.value) s

/-- Spec-side: memory `m` with every registry cell of `devlist` holding `orig` rewritten
to `new`. -/
def renameMem (devlist orig new : Nat) (m : Mem) : Mem :=
  fun a => if inRange devlist 16 a ∧ m a = orig then new else m a

/-- Spec-side: memory `m` with the five 3.41 kernel patches written, in table order. -/
def kernelMem (m : Mem) : Mem :=
  Function.update (Function.update (Function.update (Function.update (Function.update m
    0x800000000018F6B0 0x480000483C008001)
    0x800000000018F720 0x480001202F9F0000)
    0x8000000000192480 0x4800004C4092FEC4)
    0x8000000000192520 0x600000002FBA0000)
    0x800000000019282C 0x63BD06664BFFD67D

/-- The five 3.41 kernel writes as trace events, in table order. -/
def kernelPokes : List Event :=
  [ Event.poke 0x800000000018F6B0 0x480000483C008001,
    Event.poke 0x800000000018F720 0x480001202F9F0000,
    Event.poke 0x8000000000192480 0x4800004C4092FEC4,
    Event.poke 0x8000000000192520 0x600000002FBA0000,
    Event.poke 0x800000000019282C 0x63BD06664BFFD67D ]

/-! ## Concrete inputs -/

/-- An environment whose start-up steps all succeed, with the given mount syscall. -/
def envWith (mount : Mem → Mem × Int) : Env := ⟨0, 0, 0, fun _ => 0, mount⟩

/-- A mount syscall that fails and leaves memory alone. -/
def mountFails : Mem → Mem × Int := fun m => (m, -1)

/-- A mount syscall that succeeds and registers the new device, under the canonical
name, in registry slot `k` of the 3.41 device list. -/
def mountWrites (k : Nat) : Mem → Mem × Int :=
  fun m => (Function.update m (slotAddr fw341.devlist k) STR_FLASH, 0)

/-- A 3.41 memory whose registry starts `[canonical, canonical, other, canonical]`;
every other cell is zero. -/
def memScenarioA : Mem := fun a =>
  if a = VERSION_ADDR then 34100
  else if a = slotAddr fw341.devlist 0 then STR_FLASH
  else if a = slotAddr fw341.devlist 1 then STR_FLASH
  else if a = slotAddr fw341.devlist 2 then 0x5F68646400000000
  else if a = slotAddr fw341.devlist 3 then STR_FLASH
  else 0

/-- A 3.41 memory whose registry slot 5 already holds the final alias. -/
def memAlready : Mem := fun a =>
  if a = VERSION_ADDR then 34100
  else if a = slotAddr fw341.devlist 5 then STR_FFLASH
  else 0

/-- A 3.41 memory with an empty registry. -/
def memEmpty : Mem := fun a => if a = VERSION_ADDR then 34100 else 0

/-- A memory whose version word has the low 32 bits of 34100 and a high bit set. -/
def memHighBits : Mem := fun a => if a = VERSION_ADDR then 2 ^ 32 + 34100 else 0

/-- A state whose `fw` points to the 3.41 entry and whose memory is `memScenarioA`. -/
def stateScenarioA : State := ⟨memScenarioA, some fw341, []⟩

/-! ## The spec's registry operations -/

/-- Spec-side `find`: the index of the first of the 16 slots, in ascending order, whose
value equals `tag`. -/
def firstSlot (devlist : Nat) (m : Mem) (tag : Nat) : Option Nat :=
  (List.range 16).find? fun i => decide (m (slotAddr devlist i) = tag)

/-- Spec-side `matchCount`: how many of the 16 slots hold `tag`. -/
def matchCount (devlist : Nat) (m : Mem) (tag : Nat) : Nat :=
  (List.range 16).countP fun i => decide (m (slotAddr devlist i) = tag)

/-- Spec-side writes of `patchAll`: one write of `new` to each of the 16 slots that holds
`orig` in `m`, at that slot's address, in ascending slot order. -/
def patchWrites (devlist : Nat) (m : Mem) (orig new : Nat) : List Event :=
  ((List.range 16).filter fun i => decide (m (slotAddr devlist i) = orig)).map
    fun i => Event.poke (slotAddr devlist i) new

/-- The cells visited by a loop of `n` iterations starting at `ptr`, in order. -/
def slotList (ptr n : Nat) : List Nat := (List.range n).map fun k => ptr + k * 0x100

/-! ## The device-list loops -/

theorem inRange_iff (ptr n a : Nat) : inRange ptr n a ↔ ∃ k, k < n ∧ a = ptr + k * 0x100 := by
  unfold inRange
  constructor
  · intro h
    exact ⟨(a - ptr) / 0x100, by omega, by omega⟩
  · rintro ⟨k, hk, rfl⟩
    omega

theorem Devlist_Find_loop_state (val : Nat) (n ptr : Nat) (s : State) :
    (Devlist_Find.loop val n ptr s).2 = s := by
  induction n generalizing ptr with
  | zero => rfl
  | succ n ih =>
    simp only [Devlist_Find.loop, LV2_Peek]
    split
    · rfl
    · exact ih _

theorem Devlist_Find_loop_ret (val : Nat) (n ptr : Nat) (s : State)
    (hw : n = 0 ∨ ptr + (n - 1) * 0x100 < 2 ^ 64) :
    (Devlist_Find.loop val n ptr s).1 =
      if ∃ k, k < n ∧ s.mem (ptr + k * 0x100) = val then 0 else -EINVAL := by
  induction n generalizing ptr with
  | zero => simp [Devlist_Find.loop]
  | succ n ih =>
    simp only [Devlist_Find.loop, LV2_Peek]
    by_cases h0 : s.mem ptr = val
    · rw [if_pos h0, if_pos ⟨0, by omega, by simpa using h0⟩]
    · rw [if_neg h0]
      rcases Nat.eq_zero_or_pos n with hn | hn
      · subst hn
        rw [if_neg]
        · simp [Devlist_Find.loop]
        · rintro ⟨k, hk, hv⟩
          have : k = 0 := by omega
          subst this
          exact h0 (by simpa using hv)
      · have hp : (ptr + 0x100) % 2 ^ 64 = ptr + 0x100 := by
          apply Nat.mod_eq_of_lt; omega
        rw [hp, ih (ptr + 0x100) (by omega)]
        have hiff : (∃ k, k < n ∧ s.mem (ptr + 0x100 + k * 0x100) = val) ↔
            (∃ k, k < n + 1 ∧ s.mem (ptr + k * 0x100) = val) := by
          constructor
          · rintro ⟨k, hk, hv⟩
            refine ⟨k + 1, by omega, ?_⟩
            rw [← hv]; congr 1; omega
          · rintro ⟨k, hk, hv⟩
            rcases Nat.eq_zero_or_pos k with hk0 | hk0
            · subst hk0; exact absurd (by simpa using hv) h0
            · refine ⟨k - 1, by omega, ?_⟩
              rw [← hv]; congr 1; omega
        simp only [hiff]

theorem Devlist_Patch_loop_fw (orig new : Nat) (n ptr : Nat) (ret : Int) (s : State) :
    (Devlist_Patch.loop orig new n ptr ret s).2.fw = s.fw := by
  induction n generalizing ptr ret s with
  | zero => rfl
  | succ n ih =>
    simp only [Devlist_Patch.loop, LV2_Peek]
    split
    · rw [ih]; rfl
    · exact ih _ _ _

theorem Devlist_Patch_loop_mem (orig new : Nat) (n ptr : Nat) (ret : Int) (s : State)
    (hw : n = 0 ∨ ptr + (n - 1) * 0x100 < 2 ^ 64) (a : Nat) :
    (Devlist_Patch.loop orig new n ptr ret s).2.mem a =
      if inRange ptr n a ∧ s.mem a = orig then new else s.mem a := by
  induction n generalizing ptr ret s with
  | zero =>
    have : ¬ inRange ptr 0 a := by unfold inRange; omega
    simp [Devlist_Patch.loop, this]
  | succ n ih =>
    simp only [Devlist_Patch.loop, LV2_Peek]
    rcases Nat.eq_zero_or_pos n with hn | hn
    · subst hn
      have hr : inRange ptr 1 a ↔ a = ptr := by unfold inRange; omega
      by_cases h0 : s.mem ptr = orig
      · rw [if_pos h0]
        simp only [Devlist_Patch.loop, LV2_Poke, hr]
        by_cases ha : a = ptr
        · subst ha; simp [h0]
        · simp [ha]
      · rw [if_neg h0]
        simp only [Devlist_Patch.loop, hr]
        by_cases ha : a = ptr
        · subst ha; simp [h0]
        · simp [ha]
    · have hp : (ptr + 0x100) % 2 ^ 64 = ptr + 0x100 := by
        apply Nat.mod_eq_of_lt; omega
      have hr : inRange ptr (n + 1) a ↔ a = ptr ∨ inRange (ptr + 0x100) n a := by
        unfold inRange; omega
      have hne : inRange (ptr + 0x100) n a → a ≠ ptr := by unfold inRange; omega
      rw [hp]
      by_cases h0 : s.mem ptr = orig
      · rw [if_pos h0, ih (ptr + 0x100) 0 _ (by omega)]
        simp only [LV2_Poke, hr]
        by_cases ha : a = ptr
        · subst ha
          have : ¬ inRange (a + 0x100) n a := fun h => hne h rfl
          simp [this, h0]
        · simp [ha, Function.update_noteq ha]
      · rw [if_neg h0, ih (ptr + 0x100) ret s (by omega)]
        simp only [hr]
        by_cases ha : a = ptr
        · subst ha
          have : ¬ inRange (a + 0x100) n a := fun h => hne h rfl
          simp [this, h0]
        · simp [ha]

theorem Devlist_Patch_loop_ret (orig new : Nat) (n ptr : Nat) (ret : Int) (s : State)
    (hw : n = 0 ∨ ptr + (n - 1) * 0x100 < 2 ^ 64) :
    (Devlist_Patch.loop orig new n ptr ret s).1 =
      if ∃ k, k < n ∧ s.mem (ptr + k * 0x100) = orig then 0 else ret := by
  induction n generalizing ptr ret s with
  | zero => simp [Devlist_Patch.loop]
  | succ n ih =>
    simp only [Devlist_Patch.loop, LV2_Peek]
    by_cases h0 : s.mem ptr = orig
    · rw [if_pos h0, if_pos ⟨0, by omega, by simpa using h0⟩]
      rcases Nat.eq_zero_or_pos n with hn | hn
      · subst hn; simp [Devlist_Patch.loop]
      · have hp : (ptr + 0x100) % 2 ^ 64 = ptr + 0x100 := by
          apply Nat.mod_eq_of_lt; omega
        rw [hp, ih (ptr + 0x100) 0 _ (by omega)]
        simp
    · rw [if_neg h0]
      rcases Nat.eq_zero_or_pos n with hn | hn
      · subst hn
        rw [if_neg]
        · simp [Devlist_Patch.loop]
        · rintro ⟨k, hk, hv⟩
          have : k = 0 := by omega
          subst this
          exact h0 (by simpa using hv)
      · have hp : (ptr + 0x100) % 2 ^ 64 = ptr + 0x100 := by
          apply Nat.mod_eq_of_lt; omega
        rw [hp, ih (ptr + 0x100) ret s (by omega)]
        have hiff : (∃ k, k < n ∧ s.mem (ptr + 0x100 + k * 0x100) = orig) ↔
            (∃ k, k < n + 1 ∧ s.mem (ptr + k * 0x100) = orig) := by
          constructor
          · rintro ⟨k, hk, hv⟩
            refine ⟨k + 1, by omega, ?_⟩
            rw [← hv]; congr 1; omega
          · rintro ⟨k, hk, hv⟩
            rcases Nat.eq_zero_or_pos k with hk0 | hk0
            · subst hk0; exact absurd (by simpa using hv) h0
            · refine ⟨k - 1, by omega, ?_⟩
              rw [← hv]; congr 1; omega
        simp only [hiff]

/-- A patch loop that meets no matching cell changes nothing and returns `ret`. -/
theorem Devlist_Patch_loop_nomatch (orig new : Nat) (n ptr : Nat) (ret : Int) (s : State)
    (hw : n = 0 ∨ ptr + (n - 1) * 0x100 < 2 ^ 64)
    (hno : ∀ k, k < n → s.mem (ptr + k * 0x100) ≠ orig) :
    Devlist_Patch.loop orig new n ptr ret s = (ret, s) := by
  induction n generalizing ptr with
  | zero => rfl
  | succ n ih =>
    simp only [Devlist_Patch.loop, LV2_Peek]
    have h0 : s.mem ptr ≠ orig := by simpa using hno 0 (by omega)
    rw [if_neg h0]
    rcases Nat.eq_zero_or_pos n with hn | hn
    · subst hn; rfl
    · have hp : (ptr + 0x100) % 2 ^ 64 = ptr + 0x100 := by
        apply Nat.mod_eq_of_lt; omega
      rw [hp]
      apply ih _ (by omega)
      intro k hk
      have := hno (k + 1) (by omega)
      rwa [show ptr + (k + 1) * 0x100 = ptr + 0x100 + k * 0x100 by omega] at this

theorem inRange_slotAddr (devlist i : Nat) (hi : i < 16) :
    inRange devlist 16 (slotAddr devlist i) := by
  unfold inRange slotAddr; omega

theorem not_inRange_of_not_slot (devlist a : Nat) (h : ∀ i, i < 16 → a ≠ slotAddr devlist i) :
    ¬ inRange devlist 16 a := by
  intro hr
  obtain ⟨k, hk, rfl⟩ := (inRange_iff devlist 16 a).1 hr
  exact h k hk rfl

/-- What a call of `Devlist_Patch` does when `fw` points to `firm`: it returns, keeps `fw`,
and rewrites exactly the visited cells that held `orig`. -/
theorem Devlist_Patch_spec (s : State) (firm : Firmware) (orig new : Nat)
    (hfw : s.fw = some firm) (hdev : firm.devlist + 15 * 0x100 < 2 ^ 64) :
    ∃ r, Devlist_Patch s orig new = some r ∧ r.2.fw = some firm ∧
      (∀ a, r.2.mem a = if inRange firm.devlist 16 a ∧ s.mem a = orig then new else s.mem a) ∧
      r.1 = if ∃ k, k < 16 ∧ s.mem (slotAddr firm.devlist k) = orig then 0 else -EINVAL := by
  refine ⟨Devlist_Patch.loop orig new 16 firm.devlist (-EINVAL) s, ?_, ?_, ?_, ?_⟩
  · simp [Devlist_Patch, hfw]
  · rw [Devlist_Patch_loop_fw, hfw]
  · intro a
    exact Devlist_Patch_loop_mem orig new 16 firm.devlist _ s (Or.inr (by omega)) a
  · exact Devlist_Patch_loop_ret orig new 16 firm.devlist _ s (Or.inr (by omega))

/-- C2. `Devlist_Patch(orig, new)` effect and frame: each of the 16 slots at
`devlist + i * 0x100` that held `orig` holds `new` afterwards, each slot that did not hold
`orig` keeps its value, and every address that is not one of the 16 slot addresses is
unchanged.  In particular a registry whose slots 0..3 are `[orig, orig, other, orig]`
(Scenario A with `orig` canonical and `new` temporary) becomes `[new, new, other, new]`. -/
theorem C2_Devlist_Patch_effect_frame (s : State) (firm : Firmware) (orig new : Nat)
    (hfw : s.fw = some firm) (hdev : firm.devlist + 15 * 0x100 < 2 ^ 64) :
    ∃ r, Devlist_Patch s orig new = some r ∧
      (∀ i, i < 16 → s.mem (slotAddr firm.devlist i) = orig →
        r.2.mem (slotAddr firm.devlist i) = new) ∧
      (∀ i, i < 16 → s.mem (slotAddr firm.devlist i) ≠ orig →
        r.2.mem (slotAddr firm.devlist i) = s.mem (slotAddr firm.devlist i)) ∧
      (∀ a, (∀ i, i < 16 → a ≠ slotAddr firm.devlist i) → r.2.mem a = s.mem a) ∧
      (∀ other, other ≠ orig →
        s.mem (slotAddr firm.devlist 0) = orig → s.mem (slotAddr firm.devlist 1) = orig →
        s.mem (slotAddr firm.devlist 2) = other → s.mem (slotAddr firm.devlist 3) = orig →
        r.2.mem (slotAddr firm.devlist 0) = new ∧ r.2.mem (slotAddr firm.devlist 1) = new ∧
        r.2.mem (slotAddr firm.devlist 2) = other ∧ r.2.mem (slotAddr firm.devlist 3) = new) := by
  obtain ⟨r, hr, -, hmem, -⟩ := Devlist_Patch_spec s firm orig new hfw hdev
  have hyes : ∀ i, i < 16 → s.mem (slotAddr firm.devlist i) = orig →
      r.2.mem (slotAddr firm.devlist i) = new := by
    intro i hi h
    rw [hmem, if_pos ⟨inRange_slotAddr _ i hi, h⟩]
  have hnot : ∀ i, i < 16 → s.mem (slotAddr firm.devlist i) ≠ orig →
      r.2.mem (slotAddr firm.devlist i) = s.mem (slotAddr firm.devlist i) := by
    intro i _ h
    rw [hmem, if_neg (fun hc => h hc.2)]
  refine ⟨r, hr, hyes, hnot, ?_, ?_⟩
  · intro a ha
    rw [hmem, if_neg (fun hc => not_inRange_of_not_slot _ a ha hc.1)]
  · intro other hother h0 h1 h2 h3
    refine ⟨hyes 0 (by omega) h0, hyes 1 (by omega) h1, ?_, hyes 3 (by omega) h3⟩
    rw [hnot 2 (by omega) (by rw [h2]; exact hother), h2]

/-- C3. Round-trip law: when none of the 16 registry slots holds `new`,
`Devlist_Patch(old, new)` followed immediately by `Devlist_Patch(new, old)` yields a
memory identical to the original one, at the 16 slots and at every other address. -/
theorem C3_Devlist_Patch_round_trip (s : State) (firm : Firmware) (old new : Nat)
    (hfw : s.fw = some firm) (hdev : firm.devlist + 15 * 0x100 < 2 ^ 64)
    (hnew : ∀ i, i < 16 → s.mem (slotAddr firm.devlist i) ≠ new) :
    ∃ r1 r2, Devlist_Patch s old new = some r1 ∧ Devlist_Patch r1.2 new old = some r2 ∧
      r2.2.mem = s.mem := by
  obtain ⟨r1, hr1, hfw1, hmem1, -⟩ := Devlist_Patch_spec s firm old new hfw hdev
  obtain ⟨r2, hr2, -, hmem2, -⟩ := Devlist_Patch_spec r1.2 firm new old hfw1 hdev
  refine ⟨r1, r2, hr1, hr2, ?_⟩
  funext a
  rw [hmem2, hmem1]
  by_cases hin : inRange firm.devlist 16 a
  · obtain ⟨k, hk, rfl⟩ := (inRange_iff _ _ _).1 hin
    have hk' : s.mem (firm.devlist + k * 0x100) ≠ new := hnew k hk
    by_cases hold : s.mem (firm.devlist + k * 0x100) = old
    · simp [hin, hold]
    · simp [hin, hold, hk']
  · simp [hin]

/-! ## Version lookup and the patch engine -/

theorem Fw_CheckVersion_loop_of_mem (ver : Nat) (table : List Firmware)
    (hnodup : (table.map Firmware.version).Nodup) (e : Firmware) (he : e ∈ table)
    (hver : e.version = ver) : Fw_CheckVersion.loop ver table = some e := by
  induction table with
  | nil => simp at he
  | cons firm rest ih =>
    simp only [List.map_cons, List.nodup_cons] at hnodup
    simp only [Fw_CheckVersion.loop]
    rcases List.mem_cons.1 he with rfl | hin
    · rw [if_pos hver]
    · have hne : firm.version ≠ ver := by
        intro hf
        apply hnodup.1
        rw [hf, ← hver]
        exact List.mem_map_of_mem _ hin
      rw [if_neg hne]
      exact ih hnodup.2 hin

theorem Fw_CheckVersion_loop_of_not_mem (ver : Nat) (table : List Firmware)
    (hunk : ∀ e ∈ table, e.version ≠ ver) : Fw_CheckVersion.loop ver table = none := by
  induction table with
  | nil => rfl
  | cons firm rest ih =>
    simp only [Fw_CheckVersion.loop]
    rw [if_neg (hunk firm (List.mem_cons_self _ _))]
    exact ih (fun e he => hunk e (List.mem_cons_of_mem _ he))

theorem FwTable_nodup : (FwTable.map Firmware.version).Nodup := by
  simp [FwTable]

theorem Fw_CheckVersion_found (s : State) (e : Firmware) (he : e ∈ FwTable)
    (hver : s.mem VERSION_ADDR = e.version) :
    Fw_CheckVersion s = (0, { s with fw := some e }) := by
  simp only [Fw_CheckVersion, LV2_Peek]
  rw [Fw_CheckVersion_loop_of_mem _ FwTable FwTable_nodup e he hver.symm]

theorem Fw_CheckVersion_unknown (s : State)
    (hunk : ∀ e ∈ FwTable, e.version ≠ s.mem VERSION_ADDR) :
    Fw_CheckVersion s = (-EINVAL, s) := by
  simp only [Fw_CheckVersion, LV2_Peek]
  rw [Fw_CheckVersion_loop_of_not_mem _ FwTable hunk]

theorem applyPatches_fw (ps : List LV2Patch) (s : State) : (applyPatches ps s).fw = s.fw := by
  induction ps generalizing s with
  | nil => rfl
  | cons p ps ih =>
    simp only [applyPatches, List.foldl_cons] at ih ⊢
    rw [ih]; rfl

theorem applyPatches_trace (ps : List LV2Patch) (s : State) :
    (applyPatches ps s).trace = s.trace ++ ps.map fun p => Event.poke p.address p.value := by
  induction ps generalizing s with
  | nil => simp [applyPatches]
  | cons p ps ih =>
    simp only [applyPatches, List.foldl_cons] at ih ⊢
    rw [ih]; simp [LV2_Poke]

theorem applyPatches_mem_congr (ps : List LV2Patch) (s t : State) (h : s.mem = t.mem) :
    (applyPatches ps s).mem = (applyPatches ps t).mem := by
  induction ps generalizing s t with
  | nil => exact h
  | cons p ps ih =>
    simp only [applyPatches, List.foldl_cons] at ih ⊢
    apply ih
    simp [LV2_Poke, h]

/-- The patch loop on a list whose first zero-address entry is at index `n` issues the
writes of the `n` entries before it and stops. -/
theorem Fw_Lv2Patch_loop_spec (ps : List LV2Patch) (n : Nat) (s : State)
    (hsent : ∃ p, ps[n]? = some p ∧ p.address = 0)
    (hbefore : ∀ k p, k < n → ps[k]? = some p → p.address ≠ 0) :
    Fw_Lv2Patch.loop ps s = some (applyPatches (ps.take n) s) := by
  induction ps generalizing n s with
  | nil => obtain ⟨p, hp, -⟩ := hsent; simp at hp
  | cons q qs ih =>
    cases n with
    | zero =>
      obtain ⟨p, hp, h0⟩ := hsent
      simp only [List.getElem?_cons_zero, Option.some.injEq] at hp
      subst hp
      simp [Fw_Lv2Patch.loop, h0, applyPatches]
    | succ n =>
      have hq : q.address ≠ 0 := hbefore 0 q (by omega) (by simp)
      simp only [Fw_Lv2Patch.loop, if_neg hq, List.take_succ_cons, applyPatches,
        List.foldl_cons]
      apply ih
      · simpa using hsent
      · intro k p hk hp
        exact hbefore (k + 1) p (by omega) (by simpa using hp)

theorem Fw_Lv2Patch_fw341 (s : State) (hfw : s.fw = some fw341) :
    Fw_Lv2Patch s = some ⟨kernelMem s.mem, some fw341, s.trace ++ kernelPokes⟩ := by
  simp [Fw_Lv2Patch, hfw, fw341, Fw_Lv2Patch.loop, LV2_Poke, kernelMem, kernelPokes]

/-! ## The sequencer -/

theorem EINVAL_ne_zero : -EINVAL ≠ 0 := by decide

theorem EINVAL_pos : EINVAL ≠ 0 := by decide

theorem STR_FLASHX_ne_FLASH : STR_FLASHX ≠ STR_FLASH := by decide

theorem STR_FFLASH_ne_FLASH : STR_FFLASH ≠ STR_FLASH := by decide

theorem STR_FFLASH_ne_FLASHX : STR_FFLASH ≠ STR_FLASHX := by decide

theorem fw341_devlist_bound : fw341.devlist + 15 * 0x100 < 2 ^ 64 := by decide

theorem outcome_draw_error (s : State) : outcome (Image_Draw s 0) = some Outcome.Failed := by
  simp [outcome, Image_Draw]

theorem outcome_draw_ok (s : State) : outcome (Image_Draw s 1) = some Outcome.Success := by
  simp [outcome, Image_Draw]

/-- The kernel patches of 3.41 leave the registry cells alone. -/
theorem kernelMem_inRange (m : Mem) (a : Nat) (h : inRange fw341.devlist 16 a) :
    kernelMem m a = m a := by
  have hd : fw341.devlist = 0x80000000003EE470 := rfl
  rw [hd] at h
  unfold inRange at h
  unfold kernelMem
  rw [Function.update_noteq (by omega), Function.update_noteq (by omega),
    Function.update_noteq (by omega), Function.update_noteq (by omega),
    Function.update_noteq (by omega)]

theorem kernelMem_slot (m : Mem) (i : Nat) (hi : i < 16) :
    kernelMem m (slotAddr fw341.devlist i) = m (slotAddr fw341.devlist i) :=
  kernelMem_inRange m _ (inRange_slotAddr _ i hi)

theorem renameMem_slot (devlist orig new : Nat) (m : Mem) (i : Nat) (hi : i < 16) :
    renameMem devlist orig new m (slotAddr devlist i) =
      if m (slotAddr devlist i) = orig then new else m (slotAddr devlist i) := by
  simp [renameMem, inRange_slotAddr devlist i hi]

theorem Devlist_Patch_renameMem (s : State) (firm : Firmware) (orig new : Nat)
    (hfw : s.fw = some firm) (hdev : firm.devlist + 15 * 0x100 < 2 ^ 64) :
    ∃ r, Devlist_Patch s orig new = some r ∧ r.2.fw = some firm ∧
      r.2.mem = renameMem firm.devlist orig new s.mem ∧
      r.1 = if ∃ k, k < 16 ∧ s.mem (slotAddr firm.devlist k) = orig then 0 else -EINVAL := by
  obtain ⟨r, hr, hfw', hmem, hret⟩ := Devlist_Patch_spec s firm orig new hfw hdev
  exact ⟨r, hr, hfw', funext hmem, hret⟩

theorem Devlist_Patch_nomatch (s : State) (firm : Firmware) (orig new : Nat)
    (hfw : s.fw = some firm) (hdev : firm.devlist + 15 * 0x100 < 2 ^ 64)
    (hno : ∀ k, k < 16 → s.mem (slotAddr firm.devlist k) ≠ orig) :
    Devlist_Patch s orig new = some (-EINVAL, s) := by
  simp only [Devlist_Patch, hfw]
  rw [Devlist_Patch_loop_nomatch orig new 16 firm.devlist _ s (Or.inr (by omega)) hno]

theorem Devlist_Find_spec (s : State) (firm : Firmware) (val : Nat)
    (hfw : s.fw = some firm) (hdev : firm.devlist + 15 * 0x100 < 2 ^ 64) :
    Devlist_Find s val =
      some (if ∃ k, k < 16 ∧ s.mem (slotAddr firm.devlist k) = val then 0 else -EINVAL, s) := by
  simp only [Devlist_Find, hfw, slotAddr]
  have h1 := Devlist_Find_loop_ret val 16 firm.devlist s (Or.inr (by omega))
  have h2 := Devlist_Find_loop_state val 16 firm.devlist s
  exact congrArg some (Prod.ext h1 h2)

theorem main_eq_body (env : Env) (s : State) (hstart : startupOk env) :
    main env s = main.body env s := by
  obtain ⟨h1, h2, h3, h4, h5⟩ := hstart
  simp [main, Modules_Load, Resources_Load, h1, h2, h3, h4, h5]

theorem version_unknown_of_ne (m : Mem) (h : m VERSION_ADDR ≠ 34100) :
    ∀ e ∈ FwTable, e.version ≠ (initState m).mem VERSION_ADDR := by
  intro e he
  simp only [FwTable, List.mem_singleton] at he
  subst he
  exact fun hc => h hc.symm

theorem Fw_CheckVersion_init_341 (m : Mem) (hfp : m VERSION_ADDR = 34100) :
    Fw_CheckVersion (initState m) = (0, ⟨m, some fw341, []⟩) :=
  Fw_CheckVersion_found (initState m) fw341 (by simp [FwTable]) hfp

/-- Path `UnsupportedVersion`. -/
theorem main_body_unsupported (env : Env) (m : Mem) (h : m VERSION_ADDR ≠ 34100) :
    main.body env (initState m) = some (0, Image_Draw (initState m) 0) := by
  simp only [main.body, Fw_CheckVersion_unknown _ (version_unknown_of_ne m h)]
  simp [EINVAL_pos]

/-- Path `AlreadyApplied`. -/
theorem main_body_already (env : Env) (m : Mem) (hfp : m VERSION_ADDR = 34100)
    (hff : ∃ k, k < 16 ∧ m (slotAddr fw341.devlist k) = STR_FFLASH) :
    main.body env (initState m) = some (0, Image_Draw ⟨m, some fw341, []⟩ 0) := by
  simp only [main.body, Fw_CheckVersion_init_341 m hfp]
  rw [Devlist_Find_spec ⟨m, some fw341, []⟩ fw341 STR_FFLASH rfl fw341_devlist_bound]
  simp [hff]

/-- Path `NoCanonicalEntries`. -/
theorem main_body_nocanonical (env : Env) (m : Mem) (hfp : m VERSION_ADDR = 34100)
    (hno : ∀ k, k < 16 → m (slotAddr fw341.devlist k) ≠ STR_FFLASH)
    (hnc : ∀ k, k < 16 → kernelMem m (slotAddr fw341.devlist k) ≠ STR_FLASH) :
    main.body env (initState m) =
      some (0, Image_Draw ⟨kernelMem m, some fw341, kernelPokes⟩ 0) := by
  simp only [main.body, Fw_CheckVersion_init_341 m hfp]
  rw [Devlist_Find_spec ⟨m, some fw341, []⟩ fw341 STR_FFLASH rfl fw341_devlist_bound]
  have hno' : ¬ ∃ k, k < 16 ∧ m (slotAddr fw341.devlist k) = STR_FFLASH :=
    fun ⟨k, hk, hv⟩ => hno k hk hv
  simp only [hno', if_false, Option.some_bind, Fw_Lv2Patch_fw341 ⟨m, some fw341, []⟩ rfl,
    List.nil_append]
  rw [Devlist_Patch_nomatch ⟨kernelMem m, some fw341, kernelPokes⟩ fw341 STR_FLASH STR_FLASHX
    rfl fw341_devlist_bound hnc]
  simp [EINVAL_pos]

/-- Path through the mount: the final memory and the outcome. -/
theorem main_body_mount (env : Env) (m : Mem) (hfp : m VERSION_ADDR = 34100)
    (hno : ∀ k, k < 16 → m (slotAddr fw341.devlist k) ≠ STR_FFLASH)
    (hc : ∃ k, k < 16 ∧ kernelMem m (slotAddr fw341.devlist k) = STR_FLASH) :
    ∃ r3 sf, Devlist_Patch ⟨kernelMem m, some fw341, kernelPokes⟩ STR_FLASH STR_FLASHX = some r3 ∧
      r3.1 = 0 ∧ r3.2.mem = renameMem fw341.devlist STR_FLASH STR_FLASHX (kernelMem m) ∧
      main.body env (initState m) = some (0, sf) ∧
      sf.mem = renameMem fw341.devlist STR_FLASHX STR_FLASH
        (renameMem fw341.devlist STR_FLASH STR_FFLASH (env.LV2_Mount r3.2.mem).1) ∧
      outcome sf = some (if (env.LV2_Mount r3.2.mem).2 = 0 then Outcome.Success
        else Outcome.Failed) := by
  obtain ⟨r3, hr3, hfw3, hmem3, hret3⟩ := Devlist_Patch_renameMem
    ⟨kernelMem m, some fw341, kernelPokes⟩ fw341 STR_FLASH STR_FLASHX rfl fw341_devlist_bound
  rw [if_pos hc] at hret3
  obtain ⟨r5, hr5, hfw5, hmem5, -⟩ := Devlist_Patch_renameMem (LV2_Mount env r3.2).2 fw341
    STR_FLASH STR_FFLASH hfw3 fw341_devlist_bound
  obtain ⟨r6, hr6, -, hmem6, -⟩ := Devlist_Patch_renameMem r5.2 fw341
    STR_FLASHX STR_FLASH hfw5 fw341_devlist_bound
  have hno' : ¬ ∃ k, k < 16 ∧ m (slotAddr fw341.devlist k) = STR_FFLASH :=
    fun ⟨k, hk, hv⟩ => hno k hk hv
  have hbody : main.body env (initState m) =
      some (0, Image_Draw r6.2 (if (env.LV2_Mount r3.2.mem).2 = 0 then 1 else 0)) := by
    simp only [main.body, Fw_CheckVersion_init_341 m hfp]
    rw [Devlist_Find_spec ⟨m, some fw341, []⟩ fw341 STR_FFLASH rfl fw341_devlist_bound]
    simp only [hno', if_false, Option.some_bind, Fw_Lv2Patch_fw341 ⟨m, some fw341, []⟩ rfl,
      List.nil_append, hr3, hret3, main.mount, hr5, hr6]
    by_cases hst : (env.LV2_Mount r3.2.mem).2 = 0
    · simp [EINVAL_pos, LV2_Mount, hst]
    · simp [EINVAL_pos, LV2_Mount, hst]
  refine ⟨r3, _, hr3, hret3, hmem3, hbody, ?_, ?_⟩
  · show r6.2.mem = _
    rw [hmem6, hmem5]; rfl
  · by_cases hst : (env.LV2_Mount r3.2.mem).2 = 0
    · simp only [hst, if_true]; exact outcome_draw_ok _
    · simp only [hst, if_false]; exact outcome_draw_error _

/-! ## The sequencer: claims -/

/-- C1. Scenario C (unconditional restore): once the start-up steps have succeeded, from
a memory whose version word (at `0x80000000002D7580`) is 34100,
with no registry slot holding `STR_FFLASH` and at least one holding `STR_FLASH`, and with a
mount syscall that returns a non-zero status and does not modify the 16 registry slots,
`main` ends with every slot that held `STR_FLASH` before the run holding `STR_FLASH`
again, and the outcome is Failed. -/
theorem C1_scenarioC_unconditional_restore (env : Env) (m : Mem) (hstart : startupOk env)
    (hfp : m VERSION_ADDR = 34100)
    (hno : ∀ i, i < 16 → m (slotAddr fw341.devlist i) ≠ STR_FFLASH)
    (hsome : ∃ i, i < 16 ∧ m (slotAddr fw341.devlist i) = STR_FLASH)
    (hfail : ∀ m', (env.LV2_Mount m').2 ≠ 0)
    (hframe : ∀ m' i, i < 16 →
      (env.LV2_Mount m').1 (slotAddr fw341.devlist i) = m' (slotAddr fw341.devlist i)) :
    ∃ sf, main env (initState m) = some (0, sf) ∧ outcome sf = some Outcome.Failed ∧
      ∀ i, i < 16 → m (slotAddr fw341.devlist i) = STR_FLASH →
        sf.mem (slotAddr fw341.devlist i) = STR_FLASH := by
  have hc : ∃ k, k < 16 ∧ kernelMem m (slotAddr fw341.devlist k) = STR_FLASH := by
    obtain ⟨k, hk, hv⟩ := hsome
    exact ⟨k, hk, by rw [kernelMem_slot m k hk, hv]⟩
  obtain ⟨r3, sf, -, -, hmem3, hbody, hmemf, hout⟩ := main_body_mount env m hfp hno hc
  refine ⟨sf, by rw [main_eq_body env _ hstart, hbody], ?_, ?_⟩
  · rw [hout, if_neg (hfail _)]
  · intro i hi hmi
    rw [hmemf, renameMem_slot _ _ _ _ i hi, renameMem_slot _ _ _ _ i hi, hframe _ i hi, hmem3,
      renameMem_slot _ _ _ _ i hi, kernelMem_slot m i hi, hmi]
    simp [STR_FLASHX_ne_FLASH]

/-- C7. Scenario D (successful run): once the start-up steps have succeeded, from a
memory whose version word is 34100, with at
least one `STR_FLASH` slot and no `STR_FFLASH` slot, and with a mount syscall that returns 0
and changes the registry only by writing `STR_FLASH` into one slot `k` that was not
originally canonical, after the run no slot holds `STR_FLASHX`, slot `k` holds
`STR_FFLASH`, every slot that originally held `STR_FLASH` holds it again, and the outcome
is Success. -/
theorem C7_scenarioD_successful_run (env : Env) (m : Mem) (k : Nat) (hstart : startupOk env)
    (hfp : m VERSION_ADDR = 34100)
    (hno : ∀ i, i < 16 → m (slotAddr fw341.devlist i) ≠ STR_FFLASH)
    (hsome : ∃ i, i < 16 ∧ m (slotAddr fw341.devlist i) = STR_FLASH)
    (hk : k < 16) (hknc : m (slotAddr fw341.devlist k) ≠ STR_FLASH)
    (hok : ∀ m', (env.LV2_Mount m').2 = 0)
    (hwrite : ∀ m', (env.LV2_Mount m').1 (slotAddr fw341.devlist k) = STR_FLASH)
    (hframe : ∀ m' i, i < 16 → i ≠ k →
      (env.LV2_Mount m').1 (slotAddr fw341.devlist i) = m' (slotAddr fw341.devlist i)) :
    ∃ sf, main env (initState m) = some (0, sf) ∧ outcome sf = some Outcome.Success ∧
      (∀ i, i < 16 → sf.mem (slotAddr fw341.devlist i) ≠ STR_FLASHX) ∧
      sf.mem (slotAddr fw341.devlist k) = STR_FFLASH ∧
      ∀ i, i < 16 → m (slotAddr fw341.devlist i) = STR_FLASH →
        sf.mem (slotAddr fw341.devlist i) = STR_FLASH := by
  have hc : ∃ j, j < 16 ∧ kernelMem m (slotAddr fw341.devlist j) = STR_FLASH := by
    obtain ⟨j, hj, hv⟩ := hsome
    exact ⟨j, hj, by rw [kernelMem_slot m j hj, hv]⟩
  obtain ⟨r3, sf, -, -, hmem3, hbody, hmemf, hout⟩ := main_body_mount env m hfp hno hc
  refine ⟨sf, by rw [main_eq_body env _ hstart, hbody], ?_, ?_, ?_, ?_⟩
  · rw [hout, if_pos (hok _)]
  · intro i hi
    rw [hmemf, renameMem_slot _ _ _ _ i hi]
    split
    · exact fun h => STR_FLASHX_ne_FLASH h.symm
    · assumption
  · rw [hmemf, renameMem_slot _ _ _ _ k hk, renameMem_slot _ _ _ _ k hk, hwrite]
    simp [STR_FFLASH_ne_FLASHX]
  · intro i hi hmi
    have hik : i ≠ k := fun h => hknc (h ▸ hmi)
    rw [hmemf, renameMem_slot _ _ _ _ i hi, renameMem_slot _ _ _ _ i hi, hframe _ i hi hik,
      hmem3, renameMem_slot _ _ _ _ i hi, kernelMem_slot m i hi, hmi]
    simp [STR_FLASHX_ne_FLASH]

/-- C4. Final outcome of the sequencer: once the start-up steps have succeeded, `main`
returns and draws either the OK or the error image, and it reaches Success if and only if
(1) `Fw_CheckVersion` returns 0, (2) `Devlist_Find(STR_FFLASH)` returns `-EINVAL`,
(3) `Devlist_Patch(STR_FLASH, STR_FLASHX)` after the kernel patches returns 0 and
(4) `LV2_Mount` returns 0; otherwise it is Failed.  The results of the two later
`Devlist_Patch` calls play no part. -/
theorem C4_final_outcome (env : Env) (m : Mem) (hstart : startupOk env) :
    ∃ sf, main env (initState m) = some (0, sf) ∧
      (outcome sf = some Outcome.Success ∨ outcome sf = some Outcome.Failed) ∧
      (outcome sf = some Outcome.Success ↔
        ∃ s1 r2 s3 r4, Fw_CheckVersion (initState m) = (0, s1) ∧
          Devlist_Find s1 STR_FFLASH = some r2 ∧ r2.1 = -EINVAL ∧
          Fw_Lv2Patch r2.2 = some s3 ∧
          Devlist_Patch s3 STR_FLASH STR_FLASHX = some r4 ∧ r4.1 = 0 ∧
          (LV2_Mount env r4.2).1 = 0) := by
  rw [main_eq_body env _ hstart]
  by_cases hfp : m VERSION_ADDR = 34100
  · have hcv := Fw_CheckVersion_init_341 m hfp
    have hfind := Devlist_Find_spec ⟨m, some fw341, []⟩ fw341 STR_FFLASH rfl fw341_devlist_bound
    by_cases hff : ∃ k, k < 16 ∧ m (slotAddr fw341.devlist k) = STR_FFLASH
    · refine ⟨_, main_body_already env m hfp hff, Or.inr (outcome_draw_error _), ?_⟩
      rw [outcome_draw_error]
      constructor
      · intro h; cases h
      · rintro ⟨s1, r2, s3, r4, h1, h2, h3, -⟩
        rw [hcv] at h1
        obtain rfl := (Prod.mk.inj h1).2
        rw [hfind, if_pos hff] at h2
        obtain rfl := Option.some.inj h2
        exact absurd h3.symm EINVAL_ne_zero
    · have hno : ∀ k, k < 16 → m (slotAddr fw341.devlist k) ≠ STR_FFLASH :=
        fun k hk hv => hff ⟨k, hk, hv⟩
      rw [if_neg hff] at hfind
      have hpatch := Fw_Lv2Patch_fw341 ⟨m, some fw341, []⟩ rfl
      simp only [List.nil_append] at hpatch
      by_cases hc : ∃ k, k < 16 ∧ kernelMem m (slotAddr fw341.devlist k) = STR_FLASH
      · obtain ⟨r3, sf, hr3, hret3, -, hbody, -, hout⟩ := main_body_mount env m hfp hno hc
        refine ⟨sf, hbody, ?_, ?_⟩
        · rw [hout]; split <;> simp
        · rw [hout]
          constructor
          · intro h
            refine ⟨_, _, _, r3, hcv, hfind, rfl, hpatch, hr3, hret3, ?_⟩
            by_contra hst
            simp only [LV2_Mount] at hst
            rw [if_neg hst] at h
            cases h
          · rintro ⟨s1, r2, s3, r4, h1, h2, -, h4, h5, -, h7⟩
            rw [hcv] at h1
            obtain rfl := (Prod.mk.inj h1).2
            rw [hfind] at h2
            obtain rfl := Option.some.inj h2
            rw [hpatch] at h4
            obtain rfl := Option.some.inj h4
            rw [hr3] at h5
            obtain rfl := Option.some.inj h5
            simp only [LV2_Mount] at h7
            rw [if_pos h7]
      · have hnc : ∀ k, k < 16 → kernelMem m (slotAddr fw341.devlist k) ≠ STR_FLASH :=
          fun k hk hv => hc ⟨k, hk, hv⟩
        refine ⟨_, main_body_nocanonical env m hfp hno hnc, Or.inr (outcome_draw_error _), ?_⟩
        rw [outcome_draw_error]
        constructor
        · intro h; cases h
        · rintro ⟨s1, r2, s3, r4, h1, h2, -, h4, h5, h6, -⟩
          rw [hcv] at h1
          obtain rfl := (Prod.mk.inj h1).2
          rw [hfind] at h2
          obtain rfl := Option.some.inj h2
          rw [hpatch] at h4
          obtain rfl := Option.some.inj h4
          rw [Devlist_Patch_nomatch _ fw341 STR_FLASH STR_FLASHX rfl fw341_devlist_bound hnc] at h5
          obtain rfl := Option.some.inj h5
          exact absurd h6 EINVAL_ne_zero
  · refine ⟨_, main_body_unsupported env m hfp, Or.inr (outcome_draw_error _), ?_⟩
    rw [outcome_draw_error]
    constructor
    · intro h; cases h
    · rintro ⟨s1, r2, s3, r4, h1, -⟩
      rw [Fw_CheckVersion_unknown _ (version_unknown_of_ne m hfp)] at h1
      exact absurd (Prod.mk.inj h1).1 EINVAL_ne_zero

/-- C5. `UnsupportedVersion` and `AlreadyApplied` abort before any mutation: once the
start-up steps have succeeded, when the version word matches no `FwTable` entry, or matches one and some registry slot holds
`STR_FFLASH`, the run takes the Failed path, its only event is the drawing of the error
image (no `LV2_Poke`, no `LV2_Mount`), and memory is identical to the initial memory. -/
theorem C5_abort_before_mutation (env : Env) (m : Mem) (hstart : startupOk env)
    (h : (∀ e ∈ FwTable, e.version ≠ m VERSION_ADDR) ∨
      ∃ e ∈ FwTable, e.version = m VERSION_ADDR ∧
        ∃ i, i < 16 ∧ m (slotAddr e.devlist i) = STR_FFLASH) :
    ∃ sf, main env (initState m) = some (0, sf) ∧ outcome sf = some Outcome.Failed ∧
      sf.mem = m ∧ sf.trace = [Event.draw 0] ∧
      (∀ a v, Event.poke a v ∉ sf.trace) ∧ Event.mount ∉ sf.trace := by
  rw [main_eq_body env _ hstart]
  rcases h with h | ⟨e, he, hv, hff⟩
  · have hfp : m VERSION_ADDR ≠ 34100 := fun hc => h fw341 (by simp [FwTable]) hc.symm
    refine ⟨_, main_body_unsupported env m hfp, outcome_draw_error _, rfl, rfl, ?_, ?_⟩ <;>
      simp [Image_Draw, initState]
  · simp only [FwTable, List.mem_singleton] at he
    subst he
    refine ⟨_, main_body_already env m hv.symm hff, outcome_draw_error _, rfl, rfl, ?_, ?_⟩ <;>
      simp [Image_Draw]

/-- C6. `NoCanonicalEntries`: once the start-up steps have succeeded, with a supported
version word, no slot holding `STR_FFLASH`
and, once the kernel patches are applied, no slot holding `STR_FLASH`, the run takes the
Failed path, `LV2_Mount` is never called, the writes issued are exactly the descriptor's
kernel patches, the final memory is the initial memory with those patches written, and
all 16 registry slots hold their initial values. -/
theorem C6_no_canonical_entries (env : Env) (m : Mem) (hstart : startupOk env)
    (hfp : ∃ e ∈ FwTable, e.version = m VERSION_ADDR)
    (hno : ∀ i, i < 16 → m (slotAddr fw341.devlist i) ≠ STR_FFLASH)
    (hnc : ∀ i, i < 16 → kernelMem m (slotAddr fw341.devlist i) ≠ STR_FLASH) :
    ∃ sf, main env (initState m) = some (0, sf) ∧ outcome sf = some Outcome.Failed ∧
      Event.mount ∉ sf.trace ∧ sf.trace = kernelPokes ++ [Event.draw 0] ∧
      Fw_Lv2Patch ⟨m, some fw341, []⟩ = some ⟨kernelMem m, some fw341, kernelPokes⟩ ∧
      sf.mem = kernelMem m ∧
      ∀ i, i < 16 → sf.mem (slotAddr fw341.devlist i) = m (slotAddr fw341.devlist i) := by
  rw [main_eq_body env _ hstart]
  obtain ⟨e, he, hv⟩ := hfp
  simp only [FwTable, List.mem_singleton] at he
  subst he
  refine ⟨_, main_body_nocanonical env m hv.symm hno hnc, outcome_draw_error _, ?_, rfl,
    Fw_Lv2Patch_fw341 ⟨m, some fw341, []⟩ rfl, rfl, fun i hi => kernelMem_slot m i hi⟩
  simp [Image_Draw, kernelPokes]

/-! ## Version lookup and the patch engine: claims -/

/-- C8. `Fw_Lv2Patch` write trace: for an active descriptor whose `patches` array has its
first zero-address entry at index `n`, `Fw_Lv2Patch` returns having issued exactly `n`
`LV2_Poke` calls, the `k`-th being `(patches[k].address, patches[k].value)` in ascending
order; it never writes the sentinel (no write goes to address 0), and the entries after
index `n` are never used (any descriptor with the same entries up to index `n` produces
the same writes).  For the 3.41 descriptor `n` is 5 and the writes are the five listed
ones in table order. -/
theorem C8_Fw_Lv2Patch_write_trace (s : State) (firm : Firmware) (n : Nat)
    (hfw : s.fw = some firm)
    (hsent : ∃ p, firm.patches[n]? = some p ∧ p.address = 0)
    (hbefore : ∀ k p, k < n → firm.patches[k]? = some p → p.address ≠ 0) :
    ∃ s' evs, Fw_Lv2Patch s = some s' ∧ s'.trace = s.trace ++ evs ∧ evs.length = n ∧
      (∀ k, k < n → ∃ p, firm.patches[k]? = some p ∧
        evs[k]? = some (Event.poke p.address p.value)) ∧
      (∀ v, Event.poke 0 v ∉ evs) ∧
      (∀ firm' : Firmware, firm'.patches.take (n + 1) = firm.patches.take (n + 1) →
        ∃ s'', Fw_Lv2Patch { s with fw := some firm' } = some s'' ∧
          s''.mem = s'.mem ∧ s''.trace = s'.trace) ∧
      (firm = fw341 → n = 5 ∧ evs = kernelPokes) := by
  have hlen : n < firm.patches.length := by
    obtain ⟨p, hp, -⟩ := hsent
    exact (List.getElem?_eq_some_iff.1 hp).1
  have hrun := Fw_Lv2Patch_loop_spec firm.patches n s hsent hbefore
  refine ⟨applyPatches (firm.patches.take n) s,
    (firm.patches.take n).map fun p => Event.poke p.address p.value, ?_, ?_, ?_, ?_, ?_, ?_, ?_⟩
  · simp only [Fw_Lv2Patch, hfw]; exact hrun
  · exact applyPatches_trace _ s
  · simp only [List.length_map, List.length_take]; omega
  · intro k hk
    refine ⟨firm.patches[k], List.getElem?_eq_getElem (by omega), ?_⟩
    simp [List.getElem?_map, List.getElem?_take, hk, List.getElem?_eq_getElem (show k < firm.patches.length by omega)]
  · intro v hv
    obtain ⟨p, hp, hpe⟩ := List.mem_map.1 hv
    obtain ⟨k, hk, hpk⟩ := List.getElem_of_mem hp
    have hkn : k < n := by
      simp only [List.length_take] at hk; omega
    have hget : firm.patches[k]? = some p := by
      rw [← hpk, List.getElem_take, List.getElem?_eq_getElem]
    have h0 : p.address = 0 := by injection hpe
    exact hbefore k p hkn hget h0
  · intro firm' hsame
    have hidx : ∀ k, k ≤ n → firm'.patches[k]? = firm.patches[k]? := by
      intro k hk
      have h1 : (firm'.patches.take (n + 1))[k]? = (firm.patches.take (n + 1))[k]? := by
        rw [hsame]
      simpa [List.getElem?_take, Nat.lt_succ_of_le hk] using h1
    have htake : firm'.patches.take n = firm.patches.take n := by
      have := congrArg (List.take n) hsame
      simpa [List.take_take] using this
    have hrun' := Fw_Lv2Patch_loop_spec firm'.patches n { s with fw := some firm' }
      (by rw [hidx n le_rfl]; exact hsent)
      (fun k p hk hp => hbefore k p hk (by rw [← hidx k (le_of_lt hk)]; exact hp))
    refine ⟨_, by simp only [Fw_Lv2Patch]; exact hrun', ?_, ?_⟩
    · rw [htake]
      exact applyPatches_mem_congr _ _ _ rfl
    · rw [htake, applyPatches_trace, applyPatches_trace]
  · rintro rfl
    have h5 : n = 5 := by
      by_contra hne
      rcases Nat.lt_or_gt_of_ne hne with hlt | hgt
      · obtain ⟨p, hp, h0⟩ := hsent
        have hn4 : n ≤ 4 := by omega
        interval_cases n <;> simp [fw341] at hp <;> subst hp <;> simp at h0
      · exact hbefore 5 ⟨0, 0⟩ hgt (by simp [fw341]) rfl
    subst h5
    exact ⟨rfl, by simp [fw341, kernelPokes]⟩

/-- C9. Lookup of a supported version: for every entry `e` of `FwTable`, when the word
read by `Fw_CheckVersion` equals `e.version`, `Fw_CheckVersion` returns 0 and sets `fw` to
exactly that entry, changing nothing else; the entry selected by 34100 has `devlist`
`0x80000000003EE470`. -/
theorem C9_Fw_CheckVersion_supported (s : State) (e : Firmware) (he : e ∈ FwTable)
    (hver : s.mem VERSION_ADDR = e.version) :
    Fw_CheckVersion s = (0, { s with fw := some e }) ∧
      (s.mem VERSION_ADDR = 34100 → e.devlist = 0x80000000003EE470) := by
  refine ⟨Fw_CheckVersion_found s e he hver, fun _ => ?_⟩
  simp only [FwTable, List.mem_singleton] at he
  subst he
  rfl

/-- C10. Lookup of an unknown version: when the word read by `Fw_CheckVersion` is not the
version of any `FwTable` entry, `Fw_CheckVersion` returns `-EINVAL` and leaves the state,
`fw` included, as it was (unset on a first call).  Words whose low 32 bits are 34100 and
whose high bits are not all zero are such unknown versions. -/
theorem C10_Fw_CheckVersion_unknown (s : State)
    (hunk : ∀ e ∈ FwTable, e.version ≠ s.mem VERSION_ADDR) :
    Fw_CheckVersion s = (-EINVAL, s) ∧
      (s.fw = none → (Fw_CheckVersion s).2.fw = none) ∧
      (∀ (t : State) (hi : Nat), 0 < hi → t.mem VERSION_ADDR = hi * 2 ^ 32 + 34100 →
        Fw_CheckVersion t = (-EINVAL, t)) := by
  refine ⟨Fw_CheckVersion_unknown s hunk, ?_, ?_⟩
  · intro h
    rw [Fw_CheckVersion_unknown s hunk]; exact h
  · intro t hi hpos ht
    apply Fw_CheckVersion_unknown
    intro e he
    simp only [FwTable, List.mem_singleton] at he
    subst he
    rw [ht]
    show 34100 ≠ hi * 2 ^ 32 + 34100
    have : 0 < hi * 2 ^ 32 := Nat.mul_pos hpos (by decide)
    omega

/-! ## The claims at concrete inputs -/

theorem startupOk_envWith (mount : Mem → Mem × Int) : startupOk (envWith mount) :=
  ⟨rfl, rfl, rfl, rfl, rfl⟩

theorem memScenarioA_no_fflash :
    ∀ i, i < 16 → memScenarioA (slotAddr fw341.devlist i) ≠ STR_FFLASH := by decide

theorem memScenarioA_no_flashx :
    ∀ i, i < 16 → memScenarioA (slotAddr fw341.devlist i) ≠ STR_FLASHX := by decide

theorem memEmpty_no_tag (tag : Nat) (h : tag ≠ 0) :
    ∀ i, i < 16 → memEmpty (slotAddr fw341.devlist i) ≠ tag := by
  intro i hi
  have hne : slotAddr fw341.devlist i ≠ VERSION_ADDR := by
    have hd : fw341.devlist = 0x80000000003EE470 := rfl
    unfold slotAddr VERSION_ADDR; omega
  simp only [memEmpty, if_neg hne]
  exact fun hc => h hc.symm

theorem mountWrites_frame (k : Nat) (m' : Mem) (i : Nat) (hik : i ≠ k) :
    ((envWith (mountWrites k)).LV2_Mount m').1 (slotAddr fw341.devlist i) =
      m' (slotAddr fw341.devlist i) := by
  have hne : slotAddr fw341.devlist i ≠ slotAddr fw341.devlist k := by
    unfold slotAddr; omega
  simp [envWith, mountWrites, Function.update_noteq hne]

/-- Scenario C at `memScenarioA` with a failing mount: slots 0, 1 and 3 are canonical
again and the outcome is Failed. -/
theorem C1_scenarioC_witness :
    ∃ sf, main (envWith mountFails) (initState memScenarioA) = some (0, sf) ∧
      outcome sf = some Outcome.Failed ∧
      sf.mem (slotAddr fw341.devlist 0) = STR_FLASH ∧
      sf.mem (slotAddr fw341.devlist 1) = STR_FLASH ∧
      sf.mem (slotAddr fw341.devlist 3) = STR_FLASH := by
  obtain ⟨sf, hrun, hout, hslots⟩ :=
    C1_scenarioC_unconditional_restore (envWith mountFails) memScenarioA
      (startupOk_envWith _) (by decide) memScenarioA_no_fflash ⟨0, by decide, by decide⟩
      (fun _ => by simp [envWith, mountFails]) (fun _ _ _ => rfl)
  exact ⟨sf, hrun, hout, hslots 0 (by decide) (by decide), hslots 1 (by decide) (by decide),
    hslots 3 (by decide) (by decide)⟩

/-- Scenario A: `Devlist_Patch(STR_FLASH, STR_FLASHX)` on `memScenarioA` turns
`[canonical, canonical, other, canonical]` into `[temp, temp, other, temp]`. -/
theorem C2_scenarioA_witness :
    ∃ r, Devlist_Patch ⟨memScenarioA, some fw341, []⟩ STR_FLASH STR_FLASHX = some r ∧
      r.2.mem (slotAddr fw341.devlist 0) = STR_FLASHX ∧
      r.2.mem (slotAddr fw341.devlist 1) = STR_FLASHX ∧
      r.2.mem (slotAddr fw341.devlist 2) = 0x5F68646400000000 ∧
      r.2.mem (slotAddr fw341.devlist 3) = STR_FLASHX := by
  obtain ⟨r, hrun, -, -, -, hscen⟩ :=
    C2_Devlist_Patch_effect_frame ⟨memScenarioA, some fw341, []⟩ fw341 STR_FLASH STR_FLASHX
      rfl (by decide)
  exact ⟨r, hrun, hscen 0x5F68646400000000 (by decide) (by decide) (by decide) (by decide)
    (by decide)⟩

/-- Round trip at `memScenarioA`, which holds no temporary tag. -/
theorem C3_round_trip_witness :
    ∃ r1 r2, Devlist_Patch ⟨memScenarioA, some fw341, []⟩ STR_FLASH STR_FLASHX = some r1 ∧
      Devlist_Patch r1.2 STR_FLASHX STR_FLASH = some r2 ∧ r2.2.mem = memScenarioA :=
  C3_Devlist_Patch_round_trip ⟨memScenarioA, some fw341, []⟩ fw341 STR_FLASH STR_FLASHX
    rfl (by decide) memScenarioA_no_flashx

/-- The outcome characterisation at `memScenarioA` with a successful mount. -/
theorem C4_final_outcome_witness :
    startupOk (envWith (mountWrites 4)) ∧
    ∃ sf, main (envWith (mountWrites 4)) (initState memScenarioA) = some (0, sf) ∧
      (outcome sf = some Outcome.Success ∨ outcome sf = some Outcome.Failed) ∧
      (outcome sf = some Outcome.Success ↔
        ∃ s1 r2 s3 r4, Fw_CheckVersion (initState memScenarioA) = (0, s1) ∧
          Devlist_Find s1 STR_FFLASH = some r2 ∧ r2.1 = -EINVAL ∧
          Fw_Lv2Patch r2.2 = some s3 ∧
          Devlist_Patch s3 STR_FLASH STR_FLASHX = some r4 ∧ r4.1 = 0 ∧
          (LV2_Mount (envWith (mountWrites 4)) r4.2).1 = 0) :=
  ⟨startupOk_envWith _,
    C4_final_outcome (envWith (mountWrites 4)) memScenarioA (startupOk_envWith _)⟩

/-- Both aborts: an unknown version word (`memHighBits`) and an already aliased registry
(`memAlready`) end Failed with memory untouched. -/
theorem C5_abort_witness :
    (∃ sf, main (envWith mountFails) (initState memHighBits) = some (0, sf) ∧
      outcome sf = some Outcome.Failed ∧ sf.mem = memHighBits ∧
      sf.trace = [Event.draw 0]) ∧
    (∃ sf, main (envWith mountFails) (initState memAlready) = some (0, sf) ∧
      outcome sf = some Outcome.Failed ∧ sf.mem = memAlready ∧
      sf.trace = [Event.draw 0]) := by
  constructor
  · obtain ⟨sf, h1, h2, h3, h4, -⟩ :=
      C5_abort_before_mutation (envWith mountFails) memHighBits (startupOk_envWith _)
        (Or.inl (by decide))
    exact ⟨sf, h1, h2, h3, h4⟩
  · obtain ⟨sf, h1, h2, h3, h4, -⟩ :=
      C5_abort_before_mutation (envWith mountFails) memAlready (startupOk_envWith _)
        (Or.inr ⟨fw341, by decide, by decide, 5, by decide, by decide⟩)
    exact ⟨sf, h1, h2, h3, h4⟩

/-- An empty registry: the run fails after the five kernel writes, without mounting. -/
theorem C6_no_canonical_witness :
    ∃ sf, main (envWith (mountWrites 4)) (initState memEmpty) = some (0, sf) ∧
      outcome sf = some Outcome.Failed ∧ Event.mount ∉ sf.trace ∧
      sf.trace = kernelPokes ++ [Event.draw 0] ∧ sf.mem = kernelMem memEmpty := by
  obtain ⟨sf, h1, h2, h3, h4, -, h5, -⟩ :=
    C6_no_canonical_entries (envWith (mountWrites 4)) memEmpty (startupOk_envWith _)
      ⟨fw341, by decide, by decide⟩ (memEmpty_no_tag STR_FFLASH (by decide))
      (fun i hi => by
        rw [kernelMem_slot memEmpty i hi]
        exact memEmpty_no_tag STR_FLASH (by decide) i hi)
  exact ⟨sf, h1, h2, h3, h4, h5⟩

/-- Scenario D at `memScenarioA` (three canonical slots) with a mount that registers the
new device in slot 4. -/
theorem C7_scenarioD_witness :
    ∃ sf, main (envWith (mountWrites 4)) (initState memScenarioA) = some (0, sf) ∧
      outcome sf = some Outcome.Success ∧
      (∀ i, i < 16 → sf.mem (slotAddr fw341.devlist i) ≠ STR_FLASHX) ∧
      sf.mem (slotAddr fw341.devlist 4) = STR_FFLASH ∧
      sf.mem (slotAddr fw341.devlist 0) = STR_FLASH ∧
      sf.mem (slotAddr fw341.devlist 1) = STR_FLASH ∧
      sf.mem (slotAddr fw341.devlist 3) = STR_FLASH := by
  obtain ⟨sf, hrun, hout, hnox, hk, hslots⟩ :=
    C7_scenarioD_successful_run (envWith (mountWrites 4)) memScenarioA 4
      (startupOk_envWith _) (by decide) memScenarioA_no_fflash ⟨0, by decide, by decide⟩
      (by decide) (by decide) (fun _ => rfl) (fun _ => by simp [envWith, mountWrites])
      (fun m' i _ hik => mountWrites_frame 4 m' i hik)
  exact ⟨sf, hrun, hout, hnox, hk, hslots 0 (by decide) (by decide),
    hslots 1 (by decide) (by decide), hslots 3 (by decide) (by decide)⟩

/-- The 3.41 descriptor: sentinel at index 5, five writes in table order. -/
theorem C8_write_trace_witness :
    ∃ s', Fw_Lv2Patch ⟨memEmpty, some fw341, []⟩ = some s' ∧ s'.trace = kernelPokes := by
  obtain ⟨s', evs, hrun, htrace, -, -, -, -, h341⟩ :=
    C8_Fw_Lv2Patch_write_trace ⟨memEmpty, some fw341, []⟩ fw341 5 rfl
      ⟨⟨0, 0⟩, by decide, rfl⟩
      (fun k p hk hp => by
        interval_cases k <;> simp [fw341] at hp <;> subst hp <;> decide)
  refine ⟨s', hrun, ?_⟩
  rw [htrace, (h341 rfl).2]
  rfl

/-- Version word 34100 selects the 3.41 entry. -/
theorem C9_supported_witness :
    Fw_CheckVersion (initState memScenarioA) = (0, ⟨memScenarioA, some fw341, []⟩) ∧
      fw341.devlist = 0x80000000003EE470 := by
  obtain ⟨h1, h2⟩ :=
    C9_Fw_CheckVersion_supported (initState memScenarioA) fw341 (by decide) (by decide)
  exact ⟨h1, h2 (by decide)⟩

/-- A version word with the low 32 bits of 34100 and bit 32 set is not found. -/
theorem C10_unknown_witness :
    Fw_CheckVersion (initState memHighBits) = (-EINVAL, initState memHighBits) ∧
      (Fw_CheckVersion (initState memHighBits)).2.fw = none := by
  obtain ⟨h1, h2, -⟩ := C10_Fw_CheckVersion_unknown (initState memHighBits) (by decide)
  exact ⟨h1, h2 rfl⟩

/-! ## Devlist_Find and its relation to Devlist_Patch -/

theorem Devlist_Find_loop_values (val : Nat) (n ptr : Nat) (s : State) :
    (Devlist_Find.loop val n ptr s).1 = 0 ∨ (Devlist_Find.loop val n ptr s).1 = -EINVAL := by
  induction n generalizing ptr with
  | zero => exact Or.inr rfl
  | succ n ih =>
    simp only [Devlist_Find.loop, LV2_Peek]
    split
    · exact Or.inl rfl
    · exact ih _

theorem Devlist_Patch_loop_ret_zero (orig new : Nat) (n ptr : Nat) (s : State) :
    (Devlist_Patch.loop orig new n ptr 0 s).1 = 0 := by
  induction n generalizing ptr s with
  | zero => rfl
  | succ n ih =>
    simp only [Devlist_Patch.loop, LV2_Peek]
    split
    · exact ih _ _
    · exact ih _ _

/-- The two loops visit the same cells: the patch loop returns 0 exactly when the find
loop does, and otherwise returns its initial `ret` and changes nothing. -/
theorem Devlist_loops_agree (orig new : Nat) (n ptr : Nat) (ret : Int) (s : State) :
    ((Devlist_Find.loop orig n ptr s).1 = 0 →
      (Devlist_Patch.loop orig new n ptr ret s).1 = 0) ∧
    ((Devlist_Find.loop orig n ptr s).1 = -EINVAL →
      Devlist_Patch.loop orig new n ptr ret s = (ret, s)) := by
  induction n generalizing ptr with
  | zero =>
    refine ⟨fun h => ?_, fun _ => rfl⟩
    exact absurd h EINVAL_ne_zero
  | succ n ih =>
    simp only [Devlist_Find.loop, Devlist_Patch.loop, LV2_Peek]
    by_cases h0 : s.mem ptr = orig
    · rw [if_pos h0, if_pos h0]
      refine ⟨fun _ => Devlist_Patch_loop_ret_zero _ _ _ _ _, fun h => ?_⟩
      exact absurd h.symm EINVAL_ne_zero
    · rw [if_neg h0, if_neg h0]
      exact ih _

/-- C11. `Devlist_Find` found / not found: when `fw` points to a descriptor,
`Devlist_Find(tag)` returns, with either 0 or `-EINVAL`; it returns `-EINVAL` if and only
if none of the 16 slots at `devlist + i * 0x100` holds `tag`, and 0 (found) exactly when at
least one of them does; the result is the same on any memory that agrees on those 16
slots, so cells at index 16 or beyond never influence it. -/
theorem C11_Devlist_Find_found_iff (s : State) (firm : Firmware) (tag : Nat)
    (hfw : s.fw = some firm) (hdev : firm.devlist + 15 * 0x100 < 2 ^ 64) :
    ∃ r, Devlist_Find s tag = some r ∧ (r.1 = 0 ∨ r.1 = -EINVAL) ∧
      (r.1 = -EINVAL ↔ ∀ i, i < 16 → s.mem (slotAddr firm.devlist i) ≠ tag) ∧
      (r.1 = 0 ↔ ∃ i, i < 16 ∧ s.mem (slotAddr firm.devlist i) = tag) ∧
      ∀ t : State, t.fw = some firm →
        (∀ i, i < 16 → t.mem (slotAddr firm.devlist i) = s.mem (slotAddr firm.devlist i)) →
        ∃ r', Devlist_Find t tag = some r' ∧ r'.1 = r.1 := by
  have hs := Devlist_Find_spec s firm tag hfw hdev
  refine ⟨_, hs, ?_, ?_, ?_, ?_⟩
  · dsimp only
    split
    · exact Or.inl rfl
    · exact Or.inr rfl
  · dsimp only
    constructor
    · intro h i hi hv
      rw [if_pos ⟨i, hi, hv⟩] at h
      exact EINVAL_ne_zero h.symm
    · intro h
      rw [if_neg (fun ⟨i, hi, hv⟩ => h i hi hv)]
  · dsimp only
    constructor
    · intro h
      by_contra hc
      rw [if_neg hc] at h
      exact EINVAL_ne_zero h
    · intro h
      rw [if_pos h]
  · intro t ht hsame
    refine ⟨_, Devlist_Find_spec t firm tag ht hdev, ?_⟩
    dsimp only
    have hiff : (∃ k, k < 16 ∧ t.mem (slotAddr firm.devlist k) = tag) ↔
        (∃ k, k < 16 ∧ s.mem (slotAddr firm.devlist k) = tag) := by
      constructor
      · rintro ⟨k, hk, hv⟩; exact ⟨k, hk, by rw [← hsame k hk]; exact hv⟩
      · rintro ⟨k, hk, hv⟩; exact ⟨k, hk, by rw [hsame k hk]; exact hv⟩
    simp only [hiff]

/-- C15. `Devlist_Find` is read-only and idempotent: when `fw` points to a descriptor,
`Devlist_Find(tag)` returns with the state (memory and trace of writes) exactly as before
the call, so a second call straight after returns the same result. -/
theorem C15_Devlist_Find_read_only (s : State) (firm : Firmware) (tag : Nat)
    (hfw : s.fw = some firm) :
    ∃ r, Devlist_Find s tag = some r ∧ r.2 = s ∧ r.2.mem = s.mem ∧ r.2.trace = s.trace ∧
      Devlist_Find r.2 tag = some r := by
  have hrun : Devlist_Find s tag = some (Devlist_Find.loop tag 16 firm.devlist s) := by
    simp [Devlist_Find, hfw]
  have hst := Devlist_Find_loop_state tag 16 firm.devlist s
  refine ⟨_, hrun, hst, by rw [hst], by rw [hst], ?_⟩
  rw [hst]; exact hrun

/-- C20. `Devlist_Patch` and `Devlist_Find` agree on matching: when `fw` points to a
descriptor, `Devlist_Patch(orig, new)` returns 0 if and only if `Devlist_Find(orig)` on the
state before the call returns 0, and it returns `-EINVAL` exactly when `Devlist_Find(orig)`
returns `-EINVAL`, in which case the state (memory included) is left unchanged. -/
theorem C20_Devlist_Patch_Find_agree (s : State) (firm : Firmware) (orig new : Nat)
    (hfw : s.fw = some firm) :
    ∃ rp rf, Devlist_Patch s orig new = some rp ∧ Devlist_Find s orig = some rf ∧
      (rp.1 = 0 ↔ rf.1 = 0) ∧ (rp.1 = -EINVAL ↔ rf.1 = -EINVAL) ∧
      (rf.1 = -EINVAL → rp.2 = s ∧ rp.2.mem = s.mem) := by
  have hp : Devlist_Patch s orig new =
      some (Devlist_Patch.loop orig new 16 firm.devlist (-EINVAL) s) := by
    simp [Devlist_Patch, hfw]
  have hf : Devlist_Find s orig = some (Devlist_Find.loop orig 16 firm.devlist s) := by
    simp [Devlist_Find, hfw]
  obtain ⟨h0, hE⟩ := Devlist_loops_agree orig new 16 firm.devlist (-EINVAL) s
  refine ⟨_, _, hp, hf, ?_, ?_, ?_⟩
  · constructor
    · intro h
      rcases Devlist_Find_loop_values orig 16 firm.devlist s with hv | hv
      · exact hv
      · rw [hE hv] at h
        exact absurd h EINVAL_ne_zero
    · exact h0
  · constructor
    · intro h
      rcases Devlist_Find_loop_values orig 16 firm.devlist s with hv | hv
      · rw [h0 hv] at h
        exact absurd h.symm EINVAL_ne_zero
      · exact hv
    · intro h
      rw [hE h]
  · intro h
    rw [hE h]
    exact ⟨rfl, rfl⟩

/-! ## The writes of Devlist_Patch -/

theorem slotList_succ (ptr n : Nat) :
    slotList ptr (n + 1) = ptr :: slotList (ptr + 0x100) n := by
  simp only [slotList, List.range_succ_eq_map, List.map_cons, List.map_map]
  refine congrArg₂ List.cons (by omega) (List.map_congr_left fun k _ => ?_)
  simp only [Function.comp_apply]
  omega

theorem mem_slotList (ptr n a : Nat) (h : a ∈ slotList ptr n) : inRange ptr n a := by
  obtain ⟨k, hk, rfl⟩ := List.mem_map.1 h
  exact (inRange_iff ptr n _).2 ⟨k, List.mem_range.1 hk, rfl⟩

/-- The patch loop issues one write per visited cell that held `orig`, in ascending
order. -/
theorem Devlist_Patch_loop_trace (orig new : Nat) (n ptr : Nat) (ret : Int) (s : State)
    (hw : n = 0 ∨ ptr + (n - 1) * 0x100 < 2 ^ 64) :
    (Devlist_Patch.loop orig new n ptr ret s).2.trace =
      s.trace ++ ((slotList ptr n).filter fun a => decide (s.mem a = orig)).map
        fun a => Event.poke a new := by
  induction n generalizing ptr ret s with
  | zero => simp [Devlist_Patch.loop, slotList]
  | succ n ih =>
    simp only [Devlist_Patch.loop, LV2_Peek, slotList_succ]
    rcases Nat.eq_zero_or_pos n with hn | hn
    · subst hn
      by_cases h0 : s.mem ptr = orig
      · simp [Devlist_Patch.loop, LV2_Poke, slotList, h0]
      · simp [Devlist_Patch.loop, slotList, h0]
    · have hp : (ptr + 0x100) % 2 ^ 64 = ptr + 0x100 := by
        apply Nat.mod_eq_of_lt; omega
      rw [hp]
      by_cases h0 : s.mem ptr = orig
      · rw [if_pos h0, ih (ptr + 0x100) 0 _ (by omega)]
        have hcongr : ((slotList (ptr + 0x100) n).filter
            fun a => decide ((LV2_Poke s ptr new).mem a = orig)) =
            (slotList (ptr + 0x100) n).filter fun a => decide (s.mem a = orig) := by
          apply List.filter_congr
          intro a ha
          have hr := mem_slotList _ _ _ ha
          have hne : a ≠ ptr := by unfold inRange at hr; omega
          simp [LV2_Poke, Function.update_noteq hne]
        rw [hcongr]
        simp [LV2_Poke, h0]
      · rw [if_neg h0, ih (ptr + 0x100) ret s (by omega)]
        simp [h0]

theorem matchCount_eq (devlist : Nat) (m : Mem) (tag : Nat) :
    ((slotList devlist 16).filter fun a => decide (m a = tag)).length =
      matchCount devlist m tag := by
  simp only [slotList, matchCount, List.filter_map, List.length_map,
    List.countP_eq_length_filter]
  rfl

theorem matchCount_eq_zero_iff (devlist : Nat) (m : Mem) (tag : Nat) :
    matchCount devlist m tag = 0 ↔ ¬ ∃ k, k < 16 ∧ m (slotAddr devlist k) = tag := by
  simp only [matchCount, List.countP_eq_zero, List.mem_range, decide_eq_true_eq]
  constructor
  · rintro h ⟨k, hk, hv⟩; exact h k hk hv
  · intro h k hk hv; exact h ⟨k, hk, hv⟩

/-! ## What the registry operations return -/

/-- C12, as stated, fails: in `memScenarioA` the tag of slot 2 is first held by slot 2,
yet `Devlist_Find` returns 0, not the index 2. -/
theorem C12_index_counterexample :
    Devlist_Find stateScenarioA 0x5F68646400000000 = some (0, stateScenarioA) ∧
      firstSlot fw341.devlist memScenarioA 0x5F68646400000000 = some 2 ∧
      (0 : Int) ≠ ((2 : Nat) : Int) := by
  refine ⟨?_, by decide, by decide⟩
  rw [Devlist_Find_spec stateScenarioA fw341 _ rfl fw341_devlist_bound,
    if_pos ⟨2, by decide, by decide⟩]

/-- C12, amended. For every tag held by at least one of the 16 registry slots,
`Devlist_Find(tag)` returns 0 (found) and leaves the state alone, whatever the index `j`
of the first slot, in ascending order, whose value equals `tag`; the returned value
equals that index only when `j = 0`, that is when slot 0 holds `tag`. -/
theorem C12_Devlist_Find_returns_zero (s : State) (firm : Firmware) (tag : Nat)
    (hfw : s.fw = some firm) (hdev : firm.devlist + 15 * 0x100 < 2 ^ 64)
    (hheld : ∃ i, i < 16 ∧ s.mem (slotAddr firm.devlist i) = tag) :
    ∃ r j, Devlist_Find s tag = some r ∧ r.1 = 0 ∧ r.2 = s ∧
      firstSlot firm.devlist s.mem tag = some j ∧ j < 16 ∧
      s.mem (slotAddr firm.devlist j) = tag ∧
      (r.1 = (j : Int) ↔ s.mem (slotAddr firm.devlist 0) = tag) := by
  have hsome : (firstSlot firm.devlist s.mem tag).isSome := by
    obtain ⟨i, hi, hv⟩ := hheld
    simp only [firstSlot, List.find?_isSome, List.mem_range, decide_eq_true_eq]
    exact ⟨i, hi, hv⟩
  obtain ⟨j, hj⟩ := Option.isSome_iff_exists.1 hsome
  have hjp : s.mem (slotAddr firm.devlist j) = tag := by
    have := List.find?_some hj
    simpa using this
  have hjlt : j < 16 := List.mem_range.1 (List.mem_of_find?_eq_some hj)
  refine ⟨(0, s), j, ?_, rfl, rfl, hj, hjlt, hjp, ?_⟩
  · rw [Devlist_Find_spec s firm tag hfw hdev, if_pos hheld]
  · constructor
    · intro h
      have hj0 : j = 0 := by
        have : (0 : Int) = (j : Int) := h
        omega
      rw [hj0] at hjp
      exact hjp
    · intro h0
      have hfirst : firstSlot firm.devlist s.mem tag = some 0 := by
        simp only [firstSlot, List.range_succ_eq_map, List.find?_cons]
        simp [h0]
      rw [hfirst] at hj
      obtain rfl := Option.some.inj hj
      rfl

/-- C13, as stated, fails: on `memScenarioA`, where three slots hold `STR_FLASH`,
`Devlist_Patch(STR_FLASH, STR_FLASHX)` returns 0, not 3; on `memEmpty`, where none does,
it returns `-EINVAL`, not 0. -/
theorem C13_count_counterexample :
    (∃ r, Devlist_Patch stateScenarioA STR_FLASH STR_FLASHX = some r ∧ r.1 = 0) ∧
      matchCount fw341.devlist memScenarioA STR_FLASH = 3 ∧
      Devlist_Patch ⟨memEmpty, some fw341, []⟩ STR_FLASH STR_FLASHX =
        some (-EINVAL, ⟨memEmpty, some fw341, []⟩) ∧
      matchCount fw341.devlist memEmpty STR_FLASH = 0 ∧ -EINVAL ≠ 0 := by
  refine ⟨?_, by decide, ?_, by decide, by decide⟩
  · obtain ⟨r, hr, -, -, hret⟩ := Devlist_Patch_spec stateScenarioA fw341 STR_FLASH
      STR_FLASHX rfl fw341_devlist_bound
    rw [if_pos ⟨0, by decide, by decide⟩] at hret
    exact ⟨r, hr, hret⟩
  · exact Devlist_Patch_nomatch _ fw341 STR_FLASH STR_FLASHX rfl fw341_devlist_bound
      (by decide)

theorem patchWrites_eq (devlist : Nat) (m : Mem) (orig new : Nat) :
    (((slotList devlist 16).filter fun a => decide (m a = orig)).map
      fun a => Event.poke a new) = patchWrites devlist m orig new := by
  simp only [slotList, patchWrites, List.filter_map, List.map_map]
  rfl

theorem patchWrites_length (devlist : Nat) (m : Mem) (orig new : Nat) :
    (patchWrites devlist m orig new).length = matchCount devlist m orig := by
  simp only [patchWrites, matchCount, List.length_map, List.countP_eq_length_filter]

/-- C13, amended. `Devlist_Patch(oldTag, newTag)` returns a status, not a count.  It
rewrites each of the 16 slots that held `oldTag`: its writes are exactly one write of
`newTag` to the address of every such slot, in ascending slot order (as many writes as
slots that matched); afterwards those slots hold `newTag`, the other slots and every
other address are unchanged.  It returns 0 when the number of matching slots is at least
1 and `-EINVAL` when it is 0.  On a registry starting `[oldTag, oldTag, other, oldTag]`
(Scenario A) it returns 0 and slots 0..3 become `[newTag, newTag, other, newTag]`. -/
theorem C13_Devlist_Patch_returns_status (s : State) (firm : Firmware) (orig new : Nat)
    (hfw : s.fw = some firm) (hdev : firm.devlist + 15 * 0x100 < 2 ^ 64) :
    ∃ r, Devlist_Patch s orig new = some r ∧
      r.2.trace = s.trace ++ patchWrites firm.devlist s.mem orig new ∧
      (patchWrites firm.devlist s.mem orig new).length = matchCount firm.devlist s.mem orig ∧
      (∀ i, i < 16 → s.mem (slotAddr firm.devlist i) = orig →
        r.2.mem (slotAddr firm.devlist i) = new) ∧
      (∀ i, i < 16 → s.mem (slotAddr firm.devlist i) ≠ orig →
        r.2.mem (slotAddr firm.devlist i) = s.mem (slotAddr firm.devlist i)) ∧
      (∀ a, (∀ i, i < 16 → a ≠ slotAddr firm.devlist i) → r.2.mem a = s.mem a) ∧
      r.1 = (if matchCount firm.devlist s.mem orig = 0 then -EINVAL else 0) ∧
      (∀ other, other ≠ orig →
        s.mem (slotAddr firm.devlist 0) = orig → s.mem (slotAddr firm.devlist 1) = orig →
        s.mem (slotAddr firm.devlist 2) = other → s.mem (slotAddr firm.devlist 3) = orig →
        r.1 = 0 ∧ 3 ≤ matchCount firm.devlist s.mem orig ∧
        r.2.mem (slotAddr firm.devlist 0) = new ∧ r.2.mem (slotAddr firm.devlist 1) = new ∧
        r.2.mem (slotAddr firm.devlist 2) = other ∧
        r.2.mem (slotAddr firm.devlist 3) = new) := by
  have hrun : Devlist_Patch s orig new =
      some (Devlist_Patch.loop orig new 16 firm.devlist (-EINVAL) s) := by
    simp [Devlist_Patch, hfw]
  have htrace := Devlist_Patch_loop_trace orig new 16 firm.devlist (-EINVAL) s
    (Or.inr (by omega))
  rw [patchWrites_eq] at htrace
  have hmem := Devlist_Patch_loop_mem orig new 16 firm.devlist (-EINVAL) s (Or.inr (by omega))
  have hret := Devlist_Patch_loop_ret orig new 16 firm.devlist (-EINVAL) s (Or.inr (by omega))
  have hret' : (Devlist_Patch.loop orig new 16 firm.devlist (-EINVAL) s).1 =
      if matchCount firm.devlist s.mem orig = 0 then -EINVAL else 0 := by
    rw [hret]
    by_cases hm : ∃ k, k < 16 ∧ s.mem (slotAddr firm.devlist k) = orig
    · rw [if_neg (fun h0 => (matchCount_eq_zero_iff _ _ _).1 h0 hm)]
      exact if_pos hm
    · rw [if_pos ((matchCount_eq_zero_iff _ _ _).2 hm)]
      exact if_neg hm
  have hyes : ∀ i, i < 16 → s.mem (slotAddr firm.devlist i) = orig →
      (Devlist_Patch.loop orig new 16 firm.devlist (-EINVAL) s).2.mem
        (slotAddr firm.devlist i) = new := by
    intro i hi h
    rw [hmem, if_pos ⟨inRange_slotAddr _ i hi, h⟩]
  have hnot : ∀ i, i < 16 → s.mem (slotAddr firm.devlist i) ≠ orig →
      (Devlist_Patch.loop orig new 16 firm.devlist (-EINVAL) s).2.mem
        (slotAddr firm.devlist i) = s.mem (slotAddr firm.devlist i) := by
    intro i _ h
    rw [hmem, if_neg (fun hc => h hc.2)]
  refine ⟨_, hrun, htrace, patchWrites_length _ _ _ _, hyes, hnot, ?_, hret', ?_⟩
  · intro a ha
    rw [hmem, if_neg (fun hc => not_inRange_of_not_slot _ a ha hc.1)]
  · intro other hother h0 h1 h2 h3
    have hcount : 3 ≤ matchCount firm.devlist s.mem orig := by
      simp only [matchCount, List.range_succ_eq_map, List.map_cons, List.countP_cons]
      simp [h0, h1, h3]
      omega
    refine ⟨?_, hcount, hyes 0 (by omega) h0, hyes 1 (by omega) h1, ?_,
      hyes 3 (by omega) h3⟩
    · rw [hret', if_neg (by omega)]
    · rw [hnot 2 (by omega) (by rw [h2]; exact hother), h2]

/-! ## The sequencer: every path -/

/-- The writes of one `Devlist_Patch` call extend the trace by writes only. -/
theorem Devlist_Patch_trace (s : State) (firm : Firmware) (orig new : Nat) (r : Int × State)
    (hfw : s.fw = some firm) (hdev : firm.devlist + 15 * 0x100 < 2 ^ 64)
    (hr : Devlist_Patch s orig new = some r) :
    ∃ evs, r.2.trace = s.trace ++ evs ∧ ∀ e ∈ evs, ∃ a, e = Event.poke a new := by
  have hrun : Devlist_Patch s orig new =
      some (Devlist_Patch.loop orig new 16 firm.devlist (-EINVAL) s) := by
    simp [Devlist_Patch, hfw]
  rw [hrun] at hr
  obtain rfl := Option.some.inj hr
  refine ⟨_, Devlist_Patch_loop_trace orig new 16 firm.devlist (-EINVAL) s
    (Or.inr (by omega)), ?_⟩
  intro e he
  obtain ⟨a, -, rfl⟩ := List.mem_map.1 he
  exact ⟨a, rfl⟩

/-- Path through the mount, with the three `Devlist_Patch` results and the final state
spelled out. -/
theorem main_body_mount_full (env : Env) (m : Mem) (hfp : m VERSION_ADDR = 34100)
    (hno : ∀ k, k < 16 → m (slotAddr fw341.devlist k) ≠ STR_FFLASH)
    (hc : ∃ k, k < 16 ∧ kernelMem m (slotAddr fw341.devlist k) = STR_FLASH) :
    ∃ r3 r5 r6,
      Devlist_Patch ⟨kernelMem m, some fw341, kernelPokes⟩ STR_FLASH STR_FLASHX = some r3 ∧
      r3.1 = 0 ∧ r3.2.fw = some fw341 ∧
      Devlist_Patch (LV2_Mount env r3.2).2 STR_FLASH STR_FFLASH = some r5 ∧
      r5.2.fw = some fw341 ∧
      Devlist_Patch r5.2 STR_FLASHX STR_FLASH = some r6 ∧
      r6.2.mem = renameMem fw341.devlist STR_FLASHX STR_FLASH r5.2.mem ∧
      main.body env (initState m) =
        some (0, Image_Draw r6.2 (if (env.LV2_Mount r3.2.mem).2 = 0 then 1 else 0)) := by
  obtain ⟨r3, hr3, hfw3, -, hret3⟩ := Devlist_Patch_renameMem
    ⟨kernelMem m, some fw341, kernelPokes⟩ fw341 STR_FLASH STR_FLASHX rfl fw341_devlist_bound
  rw [if_pos hc] at hret3
  obtain ⟨r5, hr5, hfw5, -, -⟩ := Devlist_Patch_renameMem (LV2_Mount env r3.2).2 fw341
    STR_FLASH STR_FFLASH hfw3 fw341_devlist_bound
  obtain ⟨r6, hr6, -, hmem6, -⟩ := Devlist_Patch_renameMem r5.2 fw341
    STR_FLASHX STR_FLASH hfw5 fw341_devlist_bound
  have hno' : ¬ ∃ k, k < 16 ∧ m (slotAddr fw341.devlist k) = STR_FFLASH :=
    fun ⟨k, hk, hv⟩ => hno k hk hv
  refine ⟨r3, r5, r6, hr3, hret3, hfw3, hr5, hfw5, hr6, hmem6, ?_⟩
  simp only [main.body, Fw_CheckVersion_init_341 m hfp]
  rw [Devlist_Find_spec ⟨m, some fw341, []⟩ fw341 STR_FFLASH rfl fw341_devlist_bound]
  simp only [hno', if_false, Option.some_bind, Fw_Lv2Patch_fw341 ⟨m, some fw341, []⟩ rfl,
    List.nil_append, hr3, hret3, main.mount, hr5, hr6]
  by_cases hst : (env.LV2_Mount r3.2.mem).2 = 0
  · simp [EINVAL_pos, LV2_Mount, hst]
  · simp [EINVAL_pos, LV2_Mount, hst]

/-- On the path through the mount the kernel writes come first and the mount is called. -/
theorem main_body_mount_trace (env : Env) (m : Mem) (hfp : m VERSION_ADDR = 34100)
    (hno : ∀ k, k < 16 → m (slotAddr fw341.devlist k) ≠ STR_FFLASH)
    (hc : ∃ k, k < 16 ∧ kernelMem m (slotAddr fw341.devlist k) = STR_FLASH) :
    ∃ sf rest, main.body env (initState m) = some (0, sf) ∧
      sf.trace = kernelPokes ++ rest ∧ Event.mount ∈ rest ∧
      (∀ i, i < 16 → sf.mem (slotAddr fw341.devlist i) ≠ STR_FLASHX) ∧
      outcome sf = some (if (env.LV2_Mount (renameMem fw341.devlist STR_FLASH STR_FLASHX
        (kernelMem m))).2 = 0 then Outcome.Success else Outcome.Failed) := by
  obtain ⟨r3, r5, r6, hr3, -, hfw3, hr5, hfw5, hr6, hmem6, hbody⟩ :=
    main_body_mount_full env m hfp hno hc
  obtain ⟨e1, ht1, -⟩ := Devlist_Patch_trace _ fw341 _ _ r3 rfl fw341_devlist_bound hr3
  obtain ⟨e2, ht2, -⟩ := Devlist_Patch_trace (LV2_Mount env r3.2).2 fw341 _ _ r5 hfw3
    fw341_devlist_bound hr5
  obtain ⟨e3, ht3, -⟩ := Devlist_Patch_trace _ fw341 _ _ r6 hfw5 fw341_devlist_bound hr6
  obtain ⟨r3', hr3', -, hmem3, -⟩ := Devlist_Patch_renameMem
    ⟨kernelMem m, some fw341, kernelPokes⟩ fw341 STR_FLASH STR_FLASHX rfl fw341_devlist_bound
  rw [hr3] at hr3'
  obtain rfl := Option.some.inj hr3'
  have hmem3' : r3.2.mem = renameMem fw341.devlist STR_FLASH STR_FLASHX (kernelMem m) := hmem3
  refine ⟨_, e1 ++ [Event.mount] ++ e2 ++ e3 ++
    [Event.draw (if (env.LV2_Mount r3.2.mem).2 = 0 then 1 else 0)], hbody, ?_, ?_, ?_, ?_⟩
  · simp only [Image_Draw, ht3, ht2, LV2_Mount, ht1, List.append_assoc]
  · simp
  · intro i hi
    show r6.2.mem _ ≠ _
    rw [hmem6, renameMem_slot _ _ _ _ i hi]
    split
    · exact fun h => STR_FLASHX_ne_FLASH h.symm
    · assumption
  · rw [← hmem3']
    by_cases hst : (env.LV2_Mount r3.2.mem).2 = 0
    · simp only [hst, if_true]; exact outcome_draw_ok _
    · simp only [hst, if_false]; exact outcome_draw_error _

/-- Past start-up the sequencer always returns, with exit status 0. -/
theorem main_body_returns (env : Env) (m : Mem) :
    ∃ sf, main.body env (initState m) = some (0, sf) := by
  by_cases hfp : m VERSION_ADDR = 34100
  · by_cases hff : ∃ k, k < 16 ∧ m (slotAddr fw341.devlist k) = STR_FFLASH
    · exact ⟨_, main_body_already env m hfp hff⟩
    · have hno : ∀ k, k < 16 → m (slotAddr fw341.devlist k) ≠ STR_FFLASH :=
        fun k hk hv => hff ⟨k, hk, hv⟩
      by_cases hc : ∃ k, k < 16 ∧ kernelMem m (slotAddr fw341.devlist k) = STR_FLASH
      · obtain ⟨_, _, r6, -, -, -, -, -, -, -, hbody⟩ := main_body_mount_full env m hfp hno hc
        exact ⟨_, hbody⟩
      · exact ⟨_, main_body_nocanonical env m hfp hno (fun k hk hv => hc ⟨k, hk, hv⟩)⟩
  · exact ⟨_, main_body_unsupported env m hfp⟩

theorem main_returns (env : Env) (m : Mem) :
    ∃ sf, main env (initState m) = some (0, sf) := by
  unfold main
  split
  · exact ⟨_, rfl⟩
  · split
    · exact ⟨_, rfl⟩
    · split
      · exact ⟨_, rfl⟩
      · split
        · exact ⟨_, rfl⟩
        · exact main_body_returns env m

/-- A run whose first `Devlist_Patch` returned 0 started from a supported version word,
no final alias, and a canonical slot. -/
theorem passed_rename_out (m : Mem) (s1 : State) (r2 : Int × State) (s3 : State)
    (r4 : Int × State) (h1 : Fw_CheckVersion (initState m) = (0, s1))
    (h2 : Devlist_Find s1 STR_FFLASH = some r2) (h2' : r2.1 ≠ 0)
    (h3 : Fw_Lv2Patch r2.2 = some s3)
    (h4 : Devlist_Patch s3 STR_FLASH STR_FLASHX = some r4) (h5 : r4.1 = 0) :
    m VERSION_ADDR = 34100 ∧ (∀ k, k < 16 → m (slotAddr fw341.devlist k) ≠ STR_FFLASH) ∧
      ∃ k, k < 16 ∧ kernelMem m (slotAddr fw341.devlist k) = STR_FLASH := by
  have hfp : m VERSION_ADDR = 34100 := by
    by_contra hfp
    rw [Fw_CheckVersion_unknown _ (version_unknown_of_ne m hfp)] at h1
    exact EINVAL_ne_zero (Prod.mk.inj h1).1
  rw [Fw_CheckVersion_init_341 m hfp] at h1
  obtain rfl := (Prod.mk.inj h1).2
  rw [Devlist_Find_spec ⟨m, some fw341, []⟩ fw341 STR_FFLASH rfl fw341_devlist_bound] at h2
  obtain rfl := Option.some.inj h2
  have hff : ¬ ∃ k, k < 16 ∧ m (slotAddr fw341.devlist k) = STR_FFLASH := by
    intro hff
    apply h2'
    dsimp only
    rw [if_pos hff]
  have hno : ∀ k, k < 16 → m (slotAddr fw341.devlist k) ≠ STR_FFLASH :=
    fun k hk hv => hff ⟨k, hk, hv⟩
  refine ⟨hfp, hno, ?_⟩
  by_contra hc
  have hnc : ∀ k, k < 16 → kernelMem m (slotAddr fw341.devlist k) ≠ STR_FLASH :=
    fun k hk hv => hc ⟨k, hk, hv⟩
  rw [Fw_Lv2Patch_fw341 ⟨m, some fw341, []⟩ rfl] at h3
  obtain rfl := Option.some.inj h3
  simp only [List.nil_append] at h4
  rw [Devlist_Patch_nomatch _ fw341 STR_FLASH STR_FLASHX rfl fw341_devlist_bound hnc] at h4
  obtain rfl := Option.some.inj h4
  exact EINVAL_ne_zero h5

/-! ## The sequencer: further claims -/

/-- C14, as stated, fails: `memScenarioA` has a supported version word and no slot holding
`STR_FFLASH`, yet with a mount that succeeds the run issues the kernel writes and ends in
Success instead of going straight to Failed. -/
theorem C14_scenarioB_counterexample :
    (∃ e ∈ FwTable, e.version = memScenarioA VERSION_ADDR) ∧
      (∀ i, i < 16 → memScenarioA (slotAddr fw341.devlist i) ≠ STR_FFLASH) ∧
      ∃ sf rest, main (envWith (mountWrites 4)) (initState memScenarioA) = some (0, sf) ∧
        sf.trace = kernelPokes ++ rest ∧ outcome sf = some Outcome.Success := by
  refine ⟨⟨fw341, by decide, by decide⟩, memScenarioA_no_fflash, ?_⟩
  obtain ⟨sf, rest, hbody, htrace, -, -, hout⟩ :=
    main_body_mount_trace (envWith (mountWrites 4)) memScenarioA (by decide)
      memScenarioA_no_fflash
      ⟨0, by decide, by rw [kernelMem_slot _ 0 (by decide)]; decide⟩
  refine ⟨sf, rest, ?_, htrace, ?_⟩
  · rw [main_eq_body _ _ (startupOk_envWith _), hbody]
  · rw [hout]; rfl

/-- C14, amended. Once the start-up steps have succeeded and the version word is
supported: when no registry slot holds `STR_FFLASH`, `Devlist_Find(STR_FFLASH)` returns
`-EINVAL` (not found) and `main` goes on to the patch engine, the kernel writes of
`Fw_Lv2Patch` being the first events of the run; it is when some slot holds `STR_FFLASH`
(`Devlist_Find` returns 0, found) that `main` goes straight to Failed with no write at
all. -/
theorem C14_scenarioB_not_found_proceeds (env : Env) (m : Mem) (hstart : startupOk env)
    (hfp : ∃ e ∈ FwTable, e.version = m VERSION_ADDR) :
    ((∀ i, i < 16 → m (slotAddr fw341.devlist i) ≠ STR_FFLASH) →
      Fw_CheckVersion (initState m) = (0, ⟨m, some fw341, []⟩) ∧
      Devlist_Find ⟨m, some fw341, []⟩ STR_FFLASH = some (-EINVAL, ⟨m, some fw341, []⟩) ∧
      ∃ sf rest, main env (initState m) = some (0, sf) ∧ sf.trace = kernelPokes ++ rest) ∧
    ((∃ i, i < 16 ∧ m (slotAddr fw341.devlist i) = STR_FFLASH) →
      Devlist_Find ⟨m, some fw341, []⟩ STR_FFLASH = some (0, ⟨m, some fw341, []⟩) ∧
      ∃ sf, main env (initState m) = some (0, sf) ∧ outcome sf = some Outcome.Failed ∧
        sf.mem = m ∧ sf.trace = [Event.draw 0]) := by
  obtain ⟨e, he, hv⟩ := hfp
  simp only [FwTable, List.mem_singleton] at he
  subst he
  have hfp : m VERSION_ADDR = 34100 := hv.symm
  have hfind := Devlist_Find_spec ⟨m, some fw341, []⟩ fw341 STR_FFLASH rfl fw341_devlist_bound
  rw [main_eq_body env _ hstart]
  constructor
  · intro hno
    have hff : ¬ ∃ k, k < 16 ∧ m (slotAddr fw341.devlist k) = STR_FFLASH :=
      fun ⟨k, hk, hv⟩ => hno k hk hv
    refine ⟨Fw_CheckVersion_init_341 m hfp, by rw [hfind, if_neg hff], ?_⟩
    by_cases hc : ∃ k, k < 16 ∧ kernelMem m (slotAddr fw341.devlist k) = STR_FLASH
    · obtain ⟨sf, rest, hbody, htrace, -⟩ := main_body_mount_trace env m hfp hno hc
      exact ⟨sf, rest, hbody, htrace⟩
    · exact ⟨_, [Event.draw 0],
        main_body_nocanonical env m hfp hno (fun k hk hv => hc ⟨k, hk, hv⟩), rfl⟩
  · intro hff
    refine ⟨by rw [hfind, if_pos hff], _, main_body_already env m hfp hff,
      outcome_draw_error _, rfl, rfl⟩

/-- C16. Firmware table well-formedness: every entry of `FwTable` has 32 patch entries
with a sentinel (address 0) at some index `n < 32` and only non-zero addresses before it,
and no two entries share a version; hence for every entry the loop of `Fw_Lv2Patch`
returns after `n` writes, without leaving the `patches` array. -/
theorem C16_FwTable_well_formed :
    (∀ e ∈ FwTable, e.patches.length = 32 ∧
      ∃ n, n < 32 ∧ (∃ p, e.patches[n]? = some p ∧ p.address = 0) ∧
        (∀ k p, k < n → e.patches[k]? = some p → p.address ≠ 0) ∧
        ∀ s : State, s.fw = some e →
          ∃ s', Fw_Lv2Patch s = some s' ∧ s'.trace.length = s.trace.length + n) ∧
    (FwTable.map Firmware.version).Nodup ∧
    FwTable.Pairwise (fun a b => a.version ≠ b.version) := by
  refine ⟨?_, FwTable_nodup, by simp [FwTable]⟩
  intro e he
  simp only [FwTable, List.mem_singleton] at he
  subst he
  have hsent : ∃ p, fw341.patches[5]? = some p ∧ p.address = 0 := ⟨⟨0, 0⟩, by decide, rfl⟩
  have hbefore : ∀ k p, k < 5 → fw341.patches[k]? = some p → p.address ≠ 0 := by
    intro k p hk hp
    interval_cases k <;> simp [fw341] at hp <;> subst hp <;> decide
  refine ⟨by decide, 5, by decide, hsent, hbefore, ?_⟩
  intro s hs
  refine ⟨_, by simp only [Fw_Lv2Patch, hs]; exact Fw_Lv2Patch_loop_spec _ 5 s hsent hbefore, ?_⟩
  rw [applyPatches_trace]
  simp [fw341]

/-- C17. Exit status: whatever module loading, system and video initialisation, resource
loading, version detection, the registry scan and the mount do, `main` returns, and
returns 0. -/
theorem C17_exit_status (env : Env) (m : Mem) :
    (∃ sf, main env (initState m) = some (0, sf)) ∧
      ∀ r, main env (initState m) = some r → r.1 = 0 := by
  obtain ⟨sf, hsf⟩ := main_returns env m
  refine ⟨⟨sf, hsf⟩, ?_⟩
  intro r hr
  rw [hsf] at hr
  obtain rfl := Option.some.inj hr
  rfl

/-- C18. `Devlist_Patch` eliminates the old tag: for distinct tags `orig` and `new`, after
`Devlist_Patch(orig, new)` none of the 16 registry slots holds `orig`, `Devlist_Find(orig)`
returns `-EINVAL`, and a second `Devlist_Patch(orig, new)` returns `-EINVAL` and leaves the
state unchanged.  Consequently every run of `main` in which the rename-out
`Devlist_Patch(STR_FLASH, STR_FLASHX)` returned 0 ends with no slot holding `STR_FLASHX`
(the final restore is the last write of the run). -/
theorem C18_Devlist_Patch_eliminates_orig (s : State) (firm : Firmware) (orig new : Nat)
    (hfw : s.fw = some firm) (hdev : firm.devlist + 15 * 0x100 < 2 ^ 64)
    (hne : orig ≠ new) :
    (∃ r, Devlist_Patch s orig new = some r ∧
      (∀ i, i < 16 → r.2.mem (slotAddr firm.devlist i) ≠ orig) ∧
      Devlist_Find r.2 orig = some (-EINVAL, r.2) ∧
      Devlist_Patch r.2 orig new = some (-EINVAL, r.2)) ∧
    ∀ (env : Env) (m : Mem) (s1 : State) (r2 : Int × State) (s3 : State) (r4 : Int × State),
      startupOk env → Fw_CheckVersion (initState m) = (0, s1) →
      Devlist_Find s1 STR_FFLASH = some r2 → r2.1 ≠ 0 → Fw_Lv2Patch r2.2 = some s3 →
      Devlist_Patch s3 STR_FLASH STR_FLASHX = some r4 → r4.1 = 0 →
      ∃ sf, main env (initState m) = some (0, sf) ∧
        ∀ i, i < 16 → sf.mem (slotAddr fw341.devlist i) ≠ STR_FLASHX := by
  constructor
  · obtain ⟨r, hr, hfw', hmem, -⟩ := Devlist_Patch_spec s firm orig new hfw hdev
    have hgone : ∀ i, i < 16 → r.2.mem (slotAddr firm.devlist i) ≠ orig := by
      intro i hi
      rw [hmem]
      split
      · exact fun h => hne h.symm
      · rename_i hc
        exact fun h => hc ⟨inRange_slotAddr _ i hi, h⟩
    refine ⟨r, hr, hgone, ?_, Devlist_Patch_nomatch r.2 firm orig new hfw' hdev hgone⟩
    rw [Devlist_Find_spec r.2 firm orig hfw' hdev, if_neg (fun ⟨k, hk, hv⟩ => hgone k hk hv)]
  · intro env m s1 r2 s3 r4 hstart h1 h2 h2' h3 h4 h5
    obtain ⟨hfp, hno, hc⟩ := passed_rename_out m s1 r2 s3 r4 h1 h2 h2' h3 h4 h5
    obtain ⟨sf, -, hbody, -, -, hnox, -⟩ := main_body_mount_trace env m hfp hno hc
    exact ⟨sf, by rw [main_eq_body env _ hstart, hbody], hnox⟩

/-- C19. The active descriptor is never used before detection succeeds: `Fw_Lv2Patch`,
`Devlist_Find` and `Devlist_Patch` are undefined while `fw` is `NULL`, and `main` is
defined on every path (for every environment and initial memory), so none of them is
reached with `fw` unset; when `Fw_CheckVersion` returns 0 it has set `fw` to an entry of
`FwTable`, and when it returns `-EINVAL` `fw` is still `NULL` and the run only draws the
error image, calling none of the three. -/
theorem C19_fw_set_before_use (env : Env) (m : Mem) :
    (∀ s : State, s.fw = none →
      Fw_Lv2Patch s = none ∧ (∀ v, Devlist_Find s v = none) ∧
        ∀ a b, Devlist_Patch s a b = none) ∧
    (∃ sf, main env (initState m) = some (0, sf)) ∧
    (∀ s1, Fw_CheckVersion (initState m) = (0, s1) → ∃ e ∈ FwTable, s1.fw = some e) ∧
    ((Fw_CheckVersion (initState m)).1 ≠ 0 →
      Fw_CheckVersion (initState m) = (-EINVAL, initState m) ∧
      (Fw_CheckVersion (initState m)).2.fw = none ∧
      main.body env (initState m) = some (0, Image_Draw (initState m) 0)) := by
  refine ⟨?_, main_returns env m, ?_, ?_⟩
  · intro s hs
    refine ⟨by simp [Fw_Lv2Patch, hs], fun v => by simp [Devlist_Find, hs],
      fun a b => by simp [Devlist_Patch, hs]⟩
  · intro s1 h1
    by_cases hfp : m VERSION_ADDR = 34100
    · rw [Fw_CheckVersion_init_341 m hfp] at h1
      obtain rfl := (Prod.mk.inj h1).2
      exact ⟨fw341, by simp [FwTable], rfl⟩
    · rw [Fw_CheckVersion_unknown _ (version_unknown_of_ne m hfp)] at h1
      exact absurd (Prod.mk.inj h1).1 EINVAL_ne_zero
  · intro hret
    have hfp : m VERSION_ADDR ≠ 34100 := by
      intro hfp
      rw [Fw_CheckVersion_init_341 m hfp] at hret
      exact hret rfl
    have hcv := Fw_CheckVersion_unknown _ (version_unknown_of_ne m hfp)
    refine ⟨hcv, by rw [hcv]; rfl, main_body_unsupported env m hfp⟩

/-! ## The further claims at concrete inputs -/

/-- On `memScenarioA` the canonical tag is found and the final alias is not. -/
theorem C11_found_witness :
    (∃ r, Devlist_Find stateScenarioA STR_FLASH = some r ∧ r.1 = 0) ∧
      ∃ r, Devlist_Find stateScenarioA STR_FFLASH = some r ∧ r.1 = -EINVAL := by
  obtain ⟨r, hr, -, -, h0, -⟩ :=
    C11_Devlist_Find_found_iff stateScenarioA fw341 STR_FLASH rfl (by decide)
  obtain ⟨r', hr', -, hE, -, -⟩ :=
    C11_Devlist_Find_found_iff stateScenarioA fw341 STR_FFLASH rfl (by decide)
  exact ⟨⟨r, hr, h0.2 ⟨0, by decide, by decide⟩⟩, ⟨r', hr', hE.2 memScenarioA_no_fflash⟩⟩

/-- On `memScenarioA` the tag of slot 2 is found: the result is 0, the first index 2. -/
theorem C12_returns_zero_witness :
    ∃ r, Devlist_Find stateScenarioA 0x5F68646400000000 = some r ∧ r.1 = 0 ∧
      firstSlot fw341.devlist memScenarioA 0x5F68646400000000 = some 2 := by
  obtain ⟨r, j, hr, h0, -, -, -, -, -⟩ :=
    C12_Devlist_Find_returns_zero stateScenarioA fw341 0x5F68646400000000 rfl (by decide)
      ⟨2, by decide, by decide⟩
  exact ⟨r, hr, h0, by decide⟩

/-- Scenario A on `stateScenarioA`: the writes are exactly the three writes of
`STR_FLASHX` to slots 0, 1 and 3, the status is 0, and slots 0..3 end as
`[temp, temp, other, temp]`. -/
theorem C13_status_witness :
    ∃ r, Devlist_Patch stateScenarioA STR_FLASH STR_FLASHX = some r ∧
      r.2.trace = [Event.poke (slotAddr fw341.devlist 0) STR_FLASHX,
        Event.poke (slotAddr fw341.devlist 1) STR_FLASHX,
        Event.poke (slotAddr fw341.devlist 3) STR_FLASHX] ∧
      matchCount fw341.devlist memScenarioA STR_FLASH = 3 ∧ r.1 = 0 ∧
      r.2.mem (slotAddr fw341.devlist 0) = STR_FLASHX ∧
      r.2.mem (slotAddr fw341.devlist 1) = STR_FLASHX ∧
      r.2.mem (slotAddr fw341.devlist 2) = 0x5F68646400000000 ∧
      r.2.mem (slotAddr fw341.devlist 3) = STR_FLASHX := by
  obtain ⟨r, hr, htrace, -, -, -, -, -, hscen⟩ :=
    C13_Devlist_Patch_returns_status stateScenarioA fw341 STR_FLASH STR_FLASHX rfl
      (by decide)
  obtain ⟨h0, -, hm0, hm1, hm2, hm3⟩ :=
    hscen 0x5F68646400000000 (by decide) (by decide) (by decide) (by decide) (by decide)
  refine ⟨r, hr, ?_, by decide, h0, hm0, hm1, hm2, hm3⟩
  rw [htrace]
  decide

/-- On `memScenarioA` (no final alias) the run starts with the kernel writes; on
`memAlready` it stops at once. -/
theorem C14_proceeds_witness :
    (∃ sf rest, main (envWith mountFails) (initState memScenarioA) = some (0, sf) ∧
      sf.trace = kernelPokes ++ rest) ∧
    ∃ sf, main (envWith mountFails) (initState memAlready) = some (0, sf) ∧
      sf.trace = [Event.draw 0] := by
  obtain ⟨hA, -⟩ := C14_scenarioB_not_found_proceeds (envWith mountFails) memScenarioA
    (startupOk_envWith _) ⟨fw341, by decide, by decide⟩
  obtain ⟨-, hB⟩ := C14_scenarioB_not_found_proceeds (envWith mountFails) memAlready
    (startupOk_envWith _) ⟨fw341, by decide, by decide⟩
  obtain ⟨-, -, sf, rest, h1, h2⟩ := hA memScenarioA_no_fflash
  obtain ⟨-, sf', h3, -, -, h4⟩ := hB ⟨5, by decide, by decide⟩
  exact ⟨⟨sf, rest, h1, h2⟩, ⟨sf', h3, h4⟩⟩

/-- Two consecutive lookups on `stateScenarioA`. -/
theorem C15_read_only_witness :
    ∃ r, Devlist_Find stateScenarioA STR_FLASH = some r ∧ r.2 = stateScenarioA ∧
      Devlist_Find r.2 STR_FLASH = some r := by
  obtain ⟨r, h1, h2, -, -, h3⟩ :=
    C15_Devlist_Find_read_only stateScenarioA fw341 STR_FLASH rfl
  exact ⟨r, h1, h2, h3⟩

/-- After the rename-out on `stateScenarioA` no slot is canonical, and the run on
`memScenarioA` with a failing mount ends without a temporary tag. -/
theorem C18_eliminates_witness :
    (∃ r, Devlist_Patch stateScenarioA STR_FLASH STR_FLASHX = some r ∧
      Devlist_Find r.2 STR_FLASH = some (-EINVAL, r.2) ∧
      Devlist_Patch r.2 STR_FLASH STR_FLASHX = some (-EINVAL, r.2)) ∧
    ∃ sf, main (envWith mountFails) (initState memScenarioA) = some (0, sf) ∧
      ∀ i, i < 16 → sf.mem (slotAddr fw341.devlist i) ≠ STR_FLASHX := by
  obtain ⟨⟨r, h1, -, h2, h3⟩, hmain⟩ :=
    C18_Devlist_Patch_eliminates_orig stateScenarioA fw341 STR_FLASH STR_FLASHX rfl
      (by decide) (by decide)
  refine ⟨⟨r, h1, h2, h3⟩, ?_⟩
  have hfind : Devlist_Find ⟨memScenarioA, some fw341, []⟩ STR_FFLASH =
      some (-EINVAL, ⟨memScenarioA, some fw341, []⟩) := by
    rw [Devlist_Find_spec _ fw341 STR_FFLASH rfl fw341_devlist_bound,
      if_neg (fun ⟨k, hk, hv⟩ => memScenarioA_no_fflash k hk hv)]
  obtain ⟨r4, hr4, -, -, hret4⟩ := Devlist_Patch_spec
    ⟨kernelMem memScenarioA, some fw341, kernelPokes⟩ fw341 STR_FLASH STR_FLASHX rfl
    fw341_devlist_bound
  rw [if_pos ⟨0, by decide, by
    show kernelMem memScenarioA (slotAddr fw341.devlist 0) = STR_FLASH
    rw [kernelMem_slot _ 0 (by decide)]; decide⟩] at hret4
  exact hmain (envWith mountFails) memScenarioA _ _ _ r4 (startupOk_envWith _)
    (Fw_CheckVersion_init_341 memScenarioA (by decide)) hfind EINVAL_ne_zero
    (Fw_Lv2Patch_fw341 ⟨memScenarioA, some fw341, []⟩ rfl) hr4 hret4

/-- On `stateScenarioA` both operations report a match for the canonical tag. -/
theorem C20_agree_witness :
    ∃ rp rf, Devlist_Patch stateScenarioA STR_FLASH STR_FLASHX = some rp ∧
      Devlist_Find stateScenarioA STR_FLASH = some rf ∧ (rp.1 = 0 ↔ rf.1 = 0) := by
  obtain ⟨rp, rf, h1, h2, h3, -, -⟩ :=
    C20_Devlist_Patch_Find_agree stateScenarioA fw341 STR_FLASH STR_FLASHX rfl
  exact ⟨rp, rf, h1, h2, h3⟩

end FreeFlash
